import Mathlib

/-!
# Verification of the data reconciliation and retrieval pipeline

Shallow embedding of the core pipeline of this repository:

* `normalize_order_number`, `combine_columns` and the invoice/project join
  (`src/pages/Invoice.py`, lines 89-164);
* `row_to_snippet`, `build_corpus` and `rank_docs`
  (`src/pages/AI Integration.py`, lines 242-331).

Python / pandas values are modelled as follows: scalar cells are `PyVal`
(`none` for Python `None`, `nan` for a float NaN, exact integers, finite
floats as rationals, the two infinities, and strings); dataframes are a
column-name list plus positional rows (`Df`); Python exceptions are
`Except`.  IEEE floating point is idealised as `ℚ` (every float that the
pipeline manipulates is an exact decimal); Python's stable `list.sort` by
descending score is modelled as sorting by the lexicographic relation
"larger score first, earlier original index first", which is exactly the
specification of a stable descending sort.
-/

/-! ## Character and string helpers (Python `str.strip`, `str.split`, `str.lower`) -/

/-- The whitespace predicate used for Python `str.strip` / `str.split`
(idealised to ASCII whitespace, which is what `Char.isWhitespace` tests). -/
def wsB (c : Char) : Bool := c.isWhitespace

/-- Strip whitespace from both ends of a character list (Python `str.strip`). -/
def stripList (l : List Char) : List Char :=
  List.rdropWhile wsB (List.dropWhile wsB l)

/-- Python `str.strip` on strings. -/
def pyStrip (s : String) : String := ⟨stripList s.data⟩

/-- Split a character list on runs of whitespace, discarding empty words
(Python `str.split()` with no separator). `acc` holds the current word,
reversed. -/
def wordSplitAux : List Char → List Char → List (List Char)
  | [], acc => if acc.isEmpty then [] else [acc.reverse]
  | c :: rest, acc =>
    if wsB c then
      if acc.isEmpty then wordSplitAux rest [] else acc.reverse :: wordSplitAux rest []
    else wordSplitAux rest (c :: acc)

/-- Python `s.lower()` (idealised to ASCII case folding). -/
def pyLower (s : String) : String := ⟨s.data.map Char.toLower⟩

/-- Python `s.lower().split()` as a list of words. -/
def pyWords (s : String) : List String :=
  (wordSplitAux (pyLower s).data []).map (fun l => ⟨l⟩)

/-- Python `set(s.lower().split())`. -/
def pyTokens (s : String) : Finset String := (pyWords s).toFinset

/-! ## Decimal printing (Python `str(int)`, `str(float)`) -/

/-- The decimal digit character for `n < 10`. -/
def digitChar (n : Nat) : Char := Char.ofNat (48 + n)

/-- Decimal digits of `n`, most significant first; `fuel` bounds recursion
depth (any `fuel > log10 n` gives the exact digits). -/
def natDigitsAux : Nat → Nat → List Char
  | 0, _ => []
  | fuel + 1, n => if n < 10 then [digitChar n] else natDigitsAux fuel (n / 10) ++ [digitChar (n % 10)]

/-- Python `str` on a natural number. -/
def natToStr (n : Nat) : String := ⟨natDigitsAux (n + 1) n⟩

/-- Python `str` on an integer. -/
def intToStr (n : Int) : String :=
  if n < 0 then "-" ++ natToStr n.natAbs else natToStr n.natAbs

/-- Python `int()` applied to a finite float: truncation toward zero. -/
def ratTrunc (q : ℚ) : Int := q.num.tdiv q.den

/-- Fractional decimal digits of the fraction `a / b` with `0 ≤ a < b`,
produced by repeated multiplication by ten; `fuel` bounds the number of
digits (Python reprs of the pipeline's floats are short exact decimals,
so the cutoff is never reached on real data). -/
def fracDigitsAux (b : Nat) : Nat → Nat → List Char
  | 0, _ => []
  | fuel + 1, a =>
    if a = 0 then []
    else digitChar (a * 10 / b) :: fracDigitsAux b fuel (a * 10 % b)

/-- Python `str` on a finite float (idealised shortest-decimal printing:
sign, integer part, a dot, then the fractional digits, `"x.0"` when the
value is integral -- e.g. `str(400.0) = "400.0"`,
`str(1234.5) = "1234.5"`). -/
def floatRepr (q : ℚ) : String :=
  let sign := if q.num < 0 then "-" else ""
  let a := q.num.natAbs
  let ds := fracDigitsAux q.den 17 (a % q.den)
  sign ++ natToStr (a / q.den) ++ "." ++ (if ds.isEmpty then "0" else ⟨ds⟩)

/-- Round the fraction `n / d` (with `d > 0`) half to even (the rounding
used by Python `format`): `f = ⌊n/d⌋` when the remainder is below one
half, `f + 1` above one half, and the even one of `f`, `f + 1` at an
exact half. -/
def roundHalfEvenFrac (n : Int) (d : Nat) : Int :=
  let f := n.fdiv d
  let r : Int := n - f * d
  if 2 * r < (d : Int) then f
  else if (d : Int) < 2 * r then f + 1
  else if f % 2 = 0 then f else f + 1

/-- Python `f"{q:.0%}"`: the value times 100, rounded half to even to
zero decimal places, followed by a percent sign. -/
def formatPercent0 (q : ℚ) : String :=
  intToStr (roundHalfEvenFrac (q.num * 100) q.den) ++ "%"

/-! ## Python scalar values -/

/-- A Python scalar as it appears in a pandas cell: `None`, float NaN,
an exact `int`, a finite `float` (idealised as an exact rational), the
two infinities, or a `str`. -/
inductive PyVal where
  | none
  | nan
  | vint (n : Int)
  | vq (q : ℚ)
  | vinf
  | vneginf
  | vstr (s : String)
deriving DecidableEq, Repr

/-- `pd.isna` on a scalar: true exactly for `None` and NaN. -/
def isNA : PyVal → Bool
  | .none => true
  | .nan => true
  | _ => false

/-- Python `str()` of a scalar (as used inside f-strings). -/
def pyRepr : PyVal → String
  | .none => "None"
  | .nan => "nan"
  | .vint n => intToStr n
  | .vq q => floatRepr q
  | .vinf => "inf"
  | .vneginf => "-inf"
  | .vstr s => s

/-- The value of a scalar as a pandas join/dedup key.  `None` and NaN
collapse to one null key (pandas `merge` and `drop_duplicates` treat
missing keys as equal to each other), and `int`/integral-`float` cells
compare numerically. -/
inductive KeyRep where
  | knull
  | knum (q : ℚ)
  | kinf
  | kneginf
  | kstr (s : String)
deriving DecidableEq, Repr

/-- Key view of a scalar. -/
def keyRep : PyVal → KeyRep
  | .none => .knull
  | .nan => .knull
  | .vint n => .knum (n : ℚ)
  | .vq q => .knum q
  | .vinf => .kinf
  | .vneginf => .kneginf
  | .vstr s => .kstr s

/-! ## `normalize_order_number` (src/pages/Invoice.py lines 89-101) -/

/-- `normalize_order_number(value)`: `""` for a missing value; for an
`int` or `float`, `str(int(value))` -- `int()` succeeds on every finite
float, truncating toward zero, and only raises on an infinity, where the
`except` branch returns `str(value)`; for a string, `value.strip()`. -/
def normalize_order_number : PyVal → String
  | .none => ""
  | .nan => ""
  | .vint n => intToStr n
  | .vq q => intToStr (ratTrunc q)
  | .vinf => "inf"
  | .vneginf => "-inf"
  | .vstr s => pyStrip s

/-! ## Dataframes and the invoice/project join (src/pages/Invoice.py lines 104-164) -/

/-- A pandas dataframe: named columns and positional rows (row `r`'s cell
for column `cols[i]` is `rows[r][i]`). -/
structure Df where
  cols : List String
  rows : List (List PyVal)
deriving DecidableEq, Repr

/-- A well-formed frame: every row has exactly one cell per column. -/
def Df.Wf (df : Df) : Prop := ∀ r ∈ df.rows, r.length = df.cols.length

/-- Index of column `c` (pandas label lookup; first occurrence). -/
def colIdx (df : Df) (c : String) : Nat := df.cols.indexOf c

/-- The cell of row `row` in the column of index `i`, NaN when the row is
too short. -/
def cellAt (i : Nat) (row : List PyVal) : PyVal := row.getD i PyVal.nan

/-- The key view of a row's cell in column index `i`. -/
def keyAt (i : Nat) (row : List PyVal) : KeyRep := keyRep (cellAt i row)

/-- Column `c` as a list of values (pandas `df[c]`). -/
def getColVals (df : Df) (c : String) : List PyVal :=
  df.rows.map (cellAt (colIdx df c))

/-- `df[c] = vals`: overwrite column `c` if present, otherwise append it
as the last column (pandas assignment). -/
def setColumn (df : Df) (c : String) (vals : List PyVal) : Df :=
  if df.cols.contains c then
    { cols := df.cols, rows := List.zipWith (fun row v => row.set (colIdx df c) v) df.rows vals }
  else
    { cols := df.cols ++ [c], rows := List.zipWith (fun row v => row ++ [v]) df.rows vals }

/-- `df[cs]`: column subselection, in the order of `cs`. -/
def selectCols (df : Df) (cs : List String) : Df :=
  { cols := cs
    rows := df.rows.map (fun row => cs.map (fun c => cellAt (colIdx df c) row)) }

/-- `drop_duplicates(subset=key)` at column index `i`: keep the first row
of each key class; `fuel` bounds the recursion (any `fuel ≥ length`
computes the real result). -/
def dedupKeyAux (i : Nat) : Nat → List (List PyVal) → List (List PyVal)
  | 0, _ => []
  | _, [] => []
  | fuel + 1, r :: t =>
    r :: dedupKeyAux i fuel (t.filter (fun s => keyAt i s ≠ keyAt i r))

/-- `df.drop_duplicates(subset=key)` (keep the first occurrence per key). -/
def dropDuplicatesByKey (df : Df) (key : String) : Df :=
  { cols := df.cols, rows := dedupKeyAux (colIdx df key) df.rows.length df.rows }

/-- The non-key columns of the right frame, with pandas suffix `"_project"`
applied to names that collide with a left column (`suffixes=("", "_project")`
leaves the left names unchanged). -/
def rightCols (lcols : List String) (R : Df) (key : String) : List String :=
  (R.cols.eraseIdx (colIdx R key)).map
    (fun c => if lcols.contains c then c ++ "_project" else c)

/-- The right-side cells of one right row (its key cell removed). -/
def rightCells (R : Df) (key : String) (rrow : List PyVal) : List PyVal :=
  rrow.eraseIdx (colIdx R key)

/-- The right rows matching key view `lk` (pandas matches join keys by
value, missing keys matching each other). -/
def matchRows (R : Df) (key : String) (lk : KeyRep) : List (List PyVal) :=
  R.rows.filter (fun rrow => keyAt (colIdx R key) rrow = lk)

/-- The output rows contributed by one left row in
`L.merge(R, on=key, how="left")`: one row per matching right row, or a
single NaN-padded row when nothing matches. -/
def mergeRowsFor (L R : Df) (key : String) (lrow : List PyVal) : List (List PyVal) :=
  let ms := matchRows R key (keyAt (colIdx L key) lrow)
  if ms.isEmpty then [lrow ++ List.replicate (rightCols L.cols R key).length PyVal.nan]
  else ms.map (fun m => lrow ++ rightCells R key m)

/-- `L.merge(R, on=key, how="left", suffixes=("", "_project"))`. -/
def mergeLeft (L R : Df) (key : String) : Df :=
  { cols := L.cols ++ rightCols L.cols R key
    rows := L.rows.flatMap (mergeRowsFor L R key) }

/-- `combine_columns(df, primary, secondary)` (src/pages/Invoice.py lines
104-108): the primary column with per-row fallback to the secondary
(`combine_first`); a missing column is replaced by an all-`None` series. -/
def combine_columns (df : Df) (primary secondary : String) : List PyVal :=
  let ps := if df.cols.contains primary then getColVals df primary
            else df.rows.map (fun _ => PyVal.none)
  let ss := if df.cols.contains secondary then getColVals df secondary
            else df.rows.map (fun _ => PyVal.none)
  List.zipWith (fun a b => if isNA a then b else a) ps ss

/-- `df[newName] = combine_columns(df, primary, secondary)`. -/
def addCombined (df : Df) (newName primary secondary : String) : Df :=
  setColumn df newName (combine_columns df primary secondary)

/-- The lookup columns of src/pages/Invoice.py line 157. -/
def projectLookupCols : List String :=
  ["Order number", "Project", "Customer", "Project Value", "Balance",
   "Project Engineer", "Status", "Progress"]

/-- Line 155: `invoice_df["Order number"] =
invoice_df.get("Sale order No.", pd.Series(dtype=object)).apply(normalize_order_number)`.
An invoice frame without `"Sale order No."` gets an all-NaN key column,
because assigning the empty default series aligns to NaN. -/
def invKeyedOf (invoice : Df) : Df :=
  setColumn invoice "Order number"
    (if invoice.cols.contains "Sale order No." then
      (getColVals invoice "Sale order No.").map (fun v => PyVal.vstr (normalize_order_number v))
    else invoice.rows.map (fun _ => PyVal.nan))

/-- Line 156: `project_df["Order number"] =
project_df["Order number"].apply(normalize_order_number)` (reached only
when the column exists). -/
def projKeyedOf (project : Df) : Df :=
  setColumn project "Order number"
    ((getColVals project "Order number").map (fun v => PyVal.vstr (normalize_order_number v)))

/-- Lines 157-158: the project lookup -- the available lookup columns in
their fixed order, deduplicated by the normalized key. -/
def lookupOf (project : Df) : Df :=
  dropDuplicatesByKey
    (selectCols (projKeyedOf project)
      (projectLookupCols.filter (fun c => (projKeyedOf project).cols.contains c)))
    "Order number"

/-- The invoice/project reconciliation of src/pages/Invoice.py lines
155-164: normalize the invoice key, normalize the project key (a
`KeyError` when the project frame has no `"Order number"` column),
deduplicate the project lookup per key, left-merge, then append the three
combined columns of lines 162-164. -/
def invoiceSync (invoice project : Df) : Except String Df :=
  if project.cols.contains "Order number" then
    .ok (addCombined
      (addCombined
        (addCombined (mergeLeft (invKeyedOf invoice) (lookupOf project) "Order number")
          "Project Engineer Combined" "Project Engineer" "Project Engineer_project")
        "Customer Combined" "Customer" "Customer_project")
      "Project Combined" "Project" "Project_project")
  else .error "KeyError: Order number"

/-- Cell of `invoiceSync`'s output at column `c`, row `i` (`Option.none`
when the sync raises). -/
def syncCell (invoice project : Df) (c : String) (i : Nat) : Option PyVal :=
  match invoiceSync invoice project with
  | .ok m => some (cellAt (colIdx m c) (m.rows.getD i []))
  | .error _ => Option.none


/-! ## Snippets, corpus and ranking (src/pages/AI Integration.py lines 242-331) -/

/-- A dataframe row as delivered by `iterrows`: a label/value series. -/
def Row : Type := List (String × PyVal)

/-- `row.get(c, d)`: the labelled value, or the default when absent. -/
def rowGet (row : Row) (c : String) (d : PyVal) : PyVal :=
  match List.find? (fun x => x.1 == c) row with
  | some x => x.2
  | Option.none => d

/-- A scalar that the `:.0%` format accepts in this pipeline, as a
rational (`Progress` cells are numeric or missing after cleaning). -/
def ratOf : PyVal → ℚ
  | .vint n => (n : ℚ)
  | .vq q => q
  | _ => 0

/-- Numeric-or-missing scalar (the shape of a cleaned `Progress` cell). -/
def NumOrNA : PyVal → Bool
  | .none => true
  | .nan => true
  | .vint _ => true
  | .vq _ => true
  | _ => false

/-- The `Progress` part of a project snippet:
`f"Progress: {row.get('Progress', 0):.0%}" if pd.notna(row.get("Progress")) else "Progress: n/a"`. -/
def progressPart (row : Row) : String :=
  if isNA (rowGet row "Progress" PyVal.none) then "Progress: n/a"
  else "Progress: " ++ formatPercent0 (ratOf (rowGet row "Progress" (PyVal.vint 0)))

/-- The fixed, ordered part list of a `kind == "project"` snippet. -/
def projectParts (row : Row) : List String :=
  ["Project: " ++ pyRepr (rowGet row "Project" (PyVal.vstr "")),
   "Customer: " ++ pyRepr (rowGet row "Customer" (PyVal.vstr "")),
   "Engineer: " ++ pyRepr (rowGet row "Project Engineer" (PyVal.vstr "")),
   "Order: " ++ pyRepr (rowGet row "Order number" (PyVal.vstr "")),
   "Status: " ++ pyRepr (rowGet row "Status" (PyVal.vstr "")),
   progressPart row,
   "Value: " ++ pyRepr (rowGet row "Project Value" (PyVal.vstr "")),
   "Balance: " ++ pyRepr (rowGet row "Balance" (PyVal.vstr "")),
   "Phrase: " ++ pyRepr (rowGet row "Project Phrase" (PyVal.vstr ""))]

/-- The fixed, ordered part list of a non-project (invoice) snippet. -/
def invoiceParts (row : Row) : List String :=
  ["Customer: " ++ pyRepr (rowGet row "Customer" (PyVal.vstr "")),
   "Engineer: " ++ pyRepr (rowGet row "Project Engineer" (PyVal.vstr "")),
   "Order: " ++ pyRepr (rowGet row "Sale order No." (PyVal.vstr "")),
   "Invoice value: " ++ pyRepr (rowGet row "Invoice value" (PyVal.vstr "")),
   "Payment status: " ++ pyRepr (rowGet row "Payment Status" (PyVal.vstr "")),
   "Plan date: " ++ pyRepr (rowGet row "Invoice plan date" (PyVal.vstr "")),
   "Issued: " ++ pyRepr (rowGet row "Issued Date" (PyVal.vstr ""))]

/-- `row_to_snippet(row, kind)` (src/pages/AI Integration.py lines 242-265):
the labelled parts, keeping only truthy (non-empty) ones, joined by
`" | "`. -/
def row_to_snippet (row : Row) (kind : String) : String :=
  let parts := if kind == "project" then projectParts row else invoiceParts row
  String.intercalate " | " (parts.filter (fun p => p != ""))

/-- A corpus document: source tag plus text. -/
structure RDoc where
  source : String
  text : String
deriving DecidableEq, Repr

/-- The static workflow text `PROJECT_WORKFLOW` of src/pages/AI Integration.py. -/
def PROJECT_WORKFLOW : String :=
  "Project workflow sequence: 1) Prepare document Focus, 2) Procurement Focus, 3) Fabrication Focus, 4) Final inspection, 5) Shipping, 6) Final Document (no delay considered), 7) Completed (no delay considered)."

/-- `build_corpus` (src/pages/AI Integration.py lines 268-291); the Python
defaults are `include_workflow=True`, `limit=200`. -/
def build_corpus (project_rows invoice_rows : List Row) (domain : String)
    (include_pmbok : Bool) (pmbok_chunks : List String)
    (include_workflow : Bool) (limit : Nat) : List RDoc :=
  let docs : List RDoc := []
  let docs := if domain == "project" || domain == "both" then
      docs ++ (project_rows.take limit).map (fun r => ⟨"project", row_to_snippet r "project"⟩)
    else docs
  let docs := if domain == "invoice" || domain == "both" then
      docs ++ (invoice_rows.take limit).map (fun r => ⟨"invoice", row_to_snippet r "invoice"⟩)
    else docs
  let docs := if include_pmbok && !pmbok_chunks.isEmpty then
      docs ++ (pmbok_chunks.take 50).map (fun c => ⟨"pmbok", c⟩)
    else docs
  let docs := if include_workflow then docs ++ [⟨"workflow", PROJECT_WORKFLOW⟩] else docs
  docs

/-- Token-overlap score of a document text against a query:
`len(set(query.lower().split()) & set(text.lower().split()))`, computed
as the number of distinct query tokens that also occur in the text (the
same number; see `overlapScore_eq_card_inter`). -/
def overlapScore (query text : String) : Nat :=
  ((pyWords query).dedup.filter (fun t => t ∈ pyWords text)).length

/-- A scored entry of `rank_docs`: score, original corpus index, document. -/
abbrev REntry : Type := Nat × Nat × RDoc

/-- The order produced by Python's stable `scored.sort(key=lambda x: x[0],
reverse=True)`: strictly larger score first, equal scores kept in original
index order. -/
def rankRel (a b : REntry) : Prop := b.1 < a.1 ∨ (a.1 = b.1 ∧ a.2.1 ≤ b.2.1)

instance : DecidableRel rankRel := fun a b =>
  inferInstanceAs (Decidable (b.1 < a.1 ∨ (a.1 = b.1 ∧ a.2.1 ≤ b.2.1)))

instance : IsTotal REntry rankRel where
  total a b := by
    unfold rankRel
    rcases Nat.lt_trichotomy a.1 b.1 with h | h | h
    · exact Or.inr (Or.inl h)
    · rcases Nat.le_total a.2.1 b.2.1 with h2 | h2
      · exact Or.inl (Or.inr ⟨h, h2⟩)
      · exact Or.inr (Or.inr ⟨h.symm, h2⟩)
    · exact Or.inl (Or.inl h)

instance : IsTrans REntry rankRel where
  trans a b c hab hbc := by
    unfold rankRel at hab hbc ⊢
    rcases hab with h1 | ⟨h1, h1i⟩ <;> rcases hbc with h2 | ⟨h2, h2i⟩
    · exact Or.inl (h2.trans h1)
    · exact Or.inl (h2 ▸ h1)
    · exact Or.inl (h1 ▸ h2)
    · exact Or.inr ⟨h1.trans h2, h1i.trans h2i⟩

/-- The scored list built by the loop of `rank_docs`, with original
corpus positions attached. -/
def scoredEntries (query : String) (docs : List RDoc) : List REntry :=
  docs.enum.map (fun p => (overlapScore query p.2.text, p.1, p.2))

/-- The scored list after Python's stable descending sort. -/
def rankedEntries (query : String) (docs : List RDoc) : List REntry :=
  List.insertionSort rankRel (scoredEntries query docs)

/-- `rank_docs(query, docs, top_k)` (src/pages/AI Integration.py lines
318-331); the Python default is `top_k=10`. -/
def rank_docs (query : String) (docs : List RDoc) (top_k : Nat) : List RDoc :=
  let sorted := rankedEntries query docs
  let top := ((sorted.take top_k).filter (fun e => 0 < e.1)).map (fun e => e.2.2)
  if top.isEmpty then (sorted.take (max 1 (top_k / 3))).map (fun e => e.2.2)
  else top

/-! ## Helper lemmas: whitespace stripping and digit strings -/

lemma dropWhile_head_false {p : Char → Bool} :
    ∀ (l : List Char) (c : Char) (cs : List Char),
      List.dropWhile p l = c :: cs → p c = false := by
  intro l
  induction l with
  | nil => intro c cs h; simp at h
  | cons a t ih =>
    intro c cs h
    rw [List.dropWhile_cons] at h
    by_cases ha : p a
    · rw [if_pos ha] at h
      exact ih c cs h
    · rw [if_neg ha] at h
      cases h
      simpa using ha

lemma stripList_eq_self (l : List Char) (h : ∀ c ∈ l, wsB c = false) :
    stripList l = l := by
  have h1 : List.dropWhile wsB l = l := by
    cases l with
    | nil => rfl
    | cons a t =>
      rw [List.dropWhile_cons_of_neg]
      simp [h a (List.mem_cons_self a t)]
  have h2 : List.rdropWhile wsB l = l := by
    rw [List.rdropWhile_eq_self_iff]
    intro hl
    simp [h _ (List.getLast_mem hl)]
  rw [stripList, h1, h2]

lemma stripList_idem (l : List Char) : stripList (stripList l) = stripList l := by
  unfold stripList
  obtain ⟨t, ht⟩ := List.rdropWhile_prefix wsB (List.dropWhile wsB l)
  have h1 : List.dropWhile wsB (List.rdropWhile wsB (List.dropWhile wsB l))
      = List.rdropWhile wsB (List.dropWhile wsB l) := by
    rcases hr : List.rdropWhile wsB (List.dropWhile wsB l) with _ | ⟨c, cs⟩
    · rfl
    · rw [hr] at ht
      have hc : wsB c = false :=
        dropWhile_head_false l c (cs ++ t) (by rw [← ht]; rfl)
      rw [List.dropWhile_cons_of_neg (by simp [hc])]
  rw [h1, List.rdropWhile_idempotent]

lemma pyStrip_idem (s : String) : pyStrip (pyStrip s) = pyStrip s := by
  unfold pyStrip
  exact congrArg String.mk (stripList_idem s.data)

lemma pyStrip_eq_self (s : String) (h : ∀ c ∈ s.data, wsB c = false) :
    pyStrip s = s := by
  unfold pyStrip
  rw [stripList_eq_self _ h]

lemma wsB_digitChar (d : Nat) (hd : d < 10) : wsB (digitChar d) = false := by
  interval_cases d <;> rfl

lemma mem_natDigitsAux (fuel : Nat) :
    ∀ (n : Nat), ∀ c ∈ natDigitsAux fuel n, ∃ d, d < 10 ∧ c = digitChar d := by
  induction fuel with
  | zero => intro n c hc; simp [natDigitsAux] at hc
  | succ f ih =>
    intro n c hc
    rw [natDigitsAux] at hc
    by_cases h : n < 10
    · rw [if_pos h] at hc
      simp only [List.mem_singleton] at hc
      exact ⟨n, h, hc⟩
    · rw [if_neg h] at hc
      rcases List.mem_append.mp hc with hc | hc
      · exact ih _ c hc
      · simp only [List.mem_singleton] at hc
        exact ⟨n % 10, Nat.mod_lt _ (by omega), hc⟩

lemma noWs_natToStr (n : Nat) : ∀ c ∈ (natToStr n).data, wsB c = false := by
  intro c hc
  obtain ⟨d, hd, rfl⟩ := mem_natDigitsAux (n + 1) n c hc
  exact wsB_digitChar d hd

lemma noWs_intToStr (n : Int) : ∀ c ∈ (intToStr n).data, wsB c = false := by
  intro c hc
  unfold intToStr at hc
  by_cases h : n < 0
  · rw [if_pos h] at hc
    rcases List.mem_append.mp hc with hc | hc
    · simp only [List.mem_singleton] at hc
      subst hc
      rfl
    · exact noWs_natToStr _ c hc
  · rw [if_neg h] at hc
    exact noWs_natToStr _ c hc

lemma pyStrip_intToStr (n : Int) : pyStrip (intToStr n) = intToStr n :=
  pyStrip_eq_self _ (noWs_intToStr n)

/-! ## Claim C3 -/

/-- C3, counterexample: on the numeric input `1234.5` -- a float with a
fractional part -- `normalize_order_number` returns the truncation
`"1234"`, not the unmodified printed form `"1234.5"` that the claim
requires (Python `int(1234.5)` succeeds, so the `except` branch that
would return `str(value)` is never reached for finite floats). -/
theorem normalize_truncates_fractional_float :
    normalize_order_number (PyVal.vq (Rat.mk' 2469 2)) = "1234"
    ∧ (Rat.mk' 2469 2 : ℚ) = 1234.5
    ∧ pyRepr (PyVal.vq (Rat.mk' 2469 2)) = "1234.5"
    ∧ ("1234" : String) ≠ "1234.5" := by
  refine ⟨rfl, ?_, rfl, by decide⟩
  rw [Rat.mk'_eq_divInt]
  norm_num [Rat.divInt_eq_div]

/-- The key-normalizer contract as amended by claim C3's counterexample:
absent/null yields the empty string; a finite numeric value yields the
string form of its integer truncation toward zero whether or not it has a
fractional part; only a non-finite numeric value yields its unmodified
printed form; a string value is trimmed of surrounding whitespace and
otherwise unmodified. -/
def normalizeAmendedSpec : PyVal → String
  | .none => ""
  | .nan => ""
  | .vint n => intToStr n
  | .vq q => intToStr (ratTrunc q)
  | .vinf => pyRepr .vinf
  | .vneginf => pyRepr .vneginf
  | .vstr s => pyStrip s

/-- C3, amended: `normalize_order_number` agrees with the amended
contract `normalizeAmendedSpec` on every input. -/
theorem normalize_order_number_amended_spec :
    ∀ v : PyVal, normalize_order_number v = normalizeAmendedSpec v := by
  intro v
  cases v <;> rfl

/-! ## Claim C6 -/

/-- C6: `normalize_order_number` is idempotent (re-normalizing its string
output changes nothing), and the integer `1234`, the string `"1234"` and
the integral float `1234.0` all canonicalize to `"1234"`. -/
theorem normalize_order_number_idempotent_canonical :
    (∀ v : PyVal,
      normalize_order_number (PyVal.vstr (normalize_order_number v)) = normalize_order_number v)
    ∧ normalize_order_number (PyVal.vint 1234) = "1234"
    ∧ normalize_order_number (PyVal.vstr "1234") = "1234"
    ∧ normalize_order_number (PyVal.vq (Rat.mk' 1234 1)) = "1234"
    ∧ (Rat.mk' 1234 1 : ℚ) = 1234 := by
  refine ⟨?_, rfl, rfl, rfl, ?_⟩
  · intro v
    cases v with
    | none => rfl
    | nan => rfl
    | vint n => exact pyStrip_intToStr n
    | vq q => exact pyStrip_intToStr (ratTrunc q)
    | vinf => rfl
    | vneginf => rfl
    | vstr s => exact pyStrip_idem s
  · rw [Rat.mk'_eq_divInt]
    norm_num

/-! ## Claim C8 -/

lemma label_append_ne_empty (a b : String) (h : a.data ≠ []) : a ++ b ≠ "" := by
  intro hab
  apply h
  have hd : (a ++ b).data = ("" : String).data := by rw [hab]
  rw [String.data_append] at hd
  exact (List.append_eq_nil.mp hd).1

lemma progressPart_ne_empty (row : Row) : progressPart row ≠ "" := by
  unfold progressPart
  split
  · decide
  · exact label_append_ne_empty "Progress: " _ (by decide)

lemma invoiceParts_ne_empty (row : Row) : ∀ p ∈ invoiceParts row, p ≠ "" := by
  intro p hp
  simp only [invoiceParts, List.mem_cons, List.not_mem_nil, or_false] at hp
  rcases hp with rfl | rfl | rfl | rfl | rfl | rfl | rfl <;>
    exact label_append_ne_empty _ _ (by decide)

lemma projectParts_ne_empty (row : Row) : ∀ p ∈ projectParts row, p ≠ "" := by
  intro p hp
  simp only [projectParts, List.mem_cons, List.not_mem_nil, or_false] at hp
  rcases hp with rfl | rfl | rfl | rfl | rfl | rfl | rfl | rfl | rfl
  case inr.inr.inr.inr.inr.inl => exact progressPart_ne_empty row
  all_goals exact label_append_ne_empty _ _ (by decide)

lemma filter_ne_empty_eq_self (l : List String) (h : ∀ p ∈ l, p ≠ "") :
    l.filter (fun p => p != "") = l :=
  List.filter_eq_self.mpr (fun a ha => by simpa using h a ha)

/-- C8, counterexample: a row whose `Customer` value is the empty string
still renders a `"Customer: "` part -- the `if p` filter only drops parts
that are entirely empty, and every part starts with its nonempty label,
so a field with an empty value is never omitted and an all-empty row
renders a nonempty snippet instead of an empty one. -/
theorem row_to_snippet_keeps_empty_fields :
    row_to_snippet [("Customer", PyVal.vstr "")] "invoice"
      = "Customer:  | Engineer:  | Order:  | Invoice value:  | Payment status:  | Plan date:  | Issued: "
    ∧ List.isPrefixOf "Customer: ".data
        (row_to_snippet [("Customer", PyVal.vstr "")] "invoice").data = true
    ∧ row_to_snippet [("Customer", PyVal.vstr "")] "invoice" ≠ "" :=
  ⟨rfl, rfl, by decide⟩

/-- C8, amended: the rendered snippet lists a fixed set of fields in a
fixed order as `"label: value"` parts joined by `" | "`, and includes
every field regardless of emptiness -- a field with an empty or absent
value still contributes its `"label: "` part, because the truthiness
filter only discards entirely-empty parts and no part is ever empty.
(The project-kind conclusion is stated for rows whose `Progress` cell is
numeric or missing, the shape produced by the cleaning step, since
Python's `:.0%` format would raise on anything else.) -/
theorem row_to_snippet_fixed_parts :
    ∀ row : Row,
      row_to_snippet row "invoice" = String.intercalate " | " (invoiceParts row)
      ∧ (∀ p ∈ invoiceParts row, p ≠ "")
      ∧ (NumOrNA (rowGet row "Progress" PyVal.none) = true →
          row_to_snippet row "project" = String.intercalate " | " (projectParts row)
          ∧ ∀ p ∈ projectParts row, p ≠ "") := by
  intro row
  refine ⟨?_, invoiceParts_ne_empty row, fun _ => ⟨?_, projectParts_ne_empty row⟩⟩
  · show String.intercalate " | " ((invoiceParts row).filter (fun p => p != ""))
      = String.intercalate " | " (invoiceParts row)
    rw [filter_ne_empty_eq_self _ (invoiceParts_ne_empty row)]
  · show String.intercalate " | " ((projectParts row).filter (fun p => p != ""))
      = String.intercalate " | " (projectParts row)
    rw [filter_ne_empty_eq_self _ (projectParts_ne_empty row)]

/-- C8, witness: the amended theorem evaluated on a concrete row with a
customer and a 42% progress value. -/
theorem row_to_snippet_fixed_parts_witness :
    row_to_snippet [("Customer", PyVal.vstr "Acme"), ("Progress", PyVal.vq (Rat.mk' 21 50))] "invoice"
      = String.intercalate " | "
          (invoiceParts [("Customer", PyVal.vstr "Acme"), ("Progress", PyVal.vq (Rat.mk' 21 50))])
    ∧ (row_to_snippet [("Customer", PyVal.vstr "Acme"), ("Progress", PyVal.vq (Rat.mk' 21 50))] "project"
        = String.intercalate " | "
            (projectParts [("Customer", PyVal.vstr "Acme"), ("Progress", PyVal.vq (Rat.mk' 21 50))])
        ∧ ∀ p ∈ projectParts [("Customer", PyVal.vstr "Acme"), ("Progress", PyVal.vq (Rat.mk' 21 50))],
            p ≠ "") :=
  ⟨(row_to_snippet_fixed_parts _).1,
   (row_to_snippet_fixed_parts _).2.2 (by rfl)⟩

/-! ## Claim C10 -/

/-- The project block of the corpus: snippets of the first `limit`
project rows, in row order, present exactly for the project/both domains. -/
def corpusProjBlock (project_rows : List Row) (domain : String) (limit : Nat) : List RDoc :=
  if domain == "project" || domain == "both" then
    (project_rows.take limit).map (fun r => ⟨"project", row_to_snippet r "project"⟩)
  else []

/-- The invoice block of the corpus, analogous to the project block. -/
def corpusInvBlock (invoice_rows : List Row) (domain : String) (limit : Nat) : List RDoc :=
  if domain == "invoice" || domain == "both" then
    (invoice_rows.take limit).map (fun r => ⟨"invoice", row_to_snippet r "invoice"⟩)
  else []

/-- The domain-knowledge block of the corpus: at most the first 50 chunks. -/
def corpusPmbokBlock (include_pmbok : Bool) (chunks : List String) : List RDoc :=
  if include_pmbok && !chunks.isEmpty then (chunks.take 50).map (fun c => ⟨"pmbok", c⟩)
  else []

/-- The workflow block of the corpus: the single static document. -/
def corpusWorkflowBlock (include_workflow : Bool) : List RDoc :=
  if include_workflow then [⟨"workflow", PROJECT_WORKFLOW⟩] else []

/-- C10: `build_corpus` returns its documents in a fixed block order --
project snippets (in row order), then invoice snippets, then at most the
first 50 domain-knowledge chunks, then the static workflow document as
the very last element -- so with `include_workflow` the corpus is
nonempty even when both frames and the chunk list are empty. -/
theorem build_corpus_block_order :
    ∀ (p i : List Row) (domain : String) (ip : Bool) (chunks : List String)
      (iw : Bool) (limit : Nat),
      build_corpus p i domain ip chunks iw limit
        = corpusProjBlock p domain limit ++ corpusInvBlock i domain limit
          ++ corpusPmbokBlock ip chunks ++ corpusWorkflowBlock iw
      ∧ (iw = true →
          (build_corpus p i domain ip chunks iw limit).getLast?
            = some ⟨"workflow", PROJECT_WORKFLOW⟩
          ∧ build_corpus p i domain ip chunks iw limit ≠ []) := by
  intro p i domain ip chunks iw limit
  have heq : build_corpus p i domain ip chunks iw limit
      = corpusProjBlock p domain limit ++ corpusInvBlock i domain limit
        ++ corpusPmbokBlock ip chunks ++ corpusWorkflowBlock iw := by
    unfold build_corpus corpusProjBlock corpusInvBlock corpusPmbokBlock corpusWorkflowBlock
    by_cases h1 : (domain == "project" || domain == "both") = true <;>
      by_cases h2 : (domain == "invoice" || domain == "both") = true <;>
        by_cases h3 : (ip && !chunks.isEmpty) = true <;>
          by_cases h4 : iw = true <;>
            simp [h1, h2, h3, h4]
  refine ⟨heq, fun hw => ?_⟩
  subst hw
  rw [heq]
  have hwb : corpusWorkflowBlock true = [⟨"workflow", PROJECT_WORKFLOW⟩] := rfl
  rw [hwb]
  constructor
  · exact List.getLast?_concat _
  · simp

/-- C10, witness: with empty frames, no chunks and the workflow enabled,
the corpus is the single workflow document and it is last. -/
theorem build_corpus_block_order_witness :
    (build_corpus [] [] "both" true [] true 200).getLast?
      = some ⟨"workflow", PROJECT_WORKFLOW⟩
    ∧ build_corpus [] [] "both" true [] true 200 ≠ [] :=
  (build_corpus_block_order [] [] "both" true [] true 200).2 rfl

/-! ## Ranker lemmas -/

lemma exists_idx_getElem? {α : Type} {a : α} : ∀ {l : List α}, a ∈ l → ∃ i : Nat, l[i]? = some a := by
  intro l h
  induction l with
  | nil => simp at h
  | cons x xs ih =>
    rcases List.mem_cons.mp h with rfl | h2
    · exact ⟨0, by simp⟩
    · obtain ⟨i, hi⟩ := ih h2
      exact ⟨i + 1, by simpa using hi⟩

lemma mem_enumFrom_snd {α : Type} : ∀ {l : List α} {n : Nat} {p : Nat × α},
    p ∈ List.enumFrom n l → p.2 ∈ l := by
  intro l
  induction l with
  | nil => intro n p h; simp at h
  | cons x xs ih =>
    intro n p h
    rw [List.enumFrom_cons] at h
    rcases List.mem_cons.mp h with rfl | h2
    · exact List.mem_cons_self x xs
    · exact List.mem_cons_of_mem x (ih h2)

lemma le_fst_of_mem_enumFrom' {α : Type} : ∀ {l : List α} {n : Nat} {p : Nat × α},
    p ∈ List.enumFrom n l → n ≤ p.1 := by
  intro l
  induction l with
  | nil => intro n p h; simp at h
  | cons x xs ih =>
    intro n p h
    rw [List.enumFrom_cons] at h
    rcases List.mem_cons.mp h with rfl | h2
    · exact Nat.le_refl n
    · exact Nat.le_of_lt (Nat.lt_of_lt_of_le (Nat.lt_succ_self n) (ih h2))

lemma pairwise_fst_lt_enumFrom {α : Type} :
    ∀ (l : List α) (n : Nat), List.Pairwise (fun a b : Nat × α => a.1 < b.1) (List.enumFrom n l) := by
  intro l
  induction l with
  | nil => intro n; simp
  | cons x xs ih =>
    intro n
    rw [List.enumFrom_cons]
    refine List.Pairwise.cons ?_ (ih (n + 1))
    intro b hb
    exact Nat.lt_of_lt_of_le (Nat.lt_succ_self n) (le_fst_of_mem_enumFrom' hb)

lemma mem_scoredEntries {query : String} {docs : List RDoc} {e : REntry}
    (he : e ∈ scoredEntries query docs) :
    e.1 = overlapScore query e.2.2.text ∧ e.2.2 ∈ docs := by
  simp only [scoredEntries, List.mem_map] at he
  obtain ⟨⟨i, d⟩, hid, rfl⟩ := he
  exact ⟨rfl, mem_enumFrom_snd hid⟩

lemma exists_scoredEntry (query : String) (docs : List RDoc) (d : RDoc) (hd : d ∈ docs) :
    ∃ e ∈ scoredEntries query docs, e.1 = overlapScore query d.text ∧ e.2.2 = d := by
  obtain ⟨i, hi⟩ := exists_idx_getElem? hd
  refine ⟨(overlapScore query d.text, i, d), ?_, rfl, rfl⟩
  simp only [scoredEntries, List.mem_map]
  exact ⟨(i, d), List.mk_mem_enum_iff_getElem?.mpr hi, rfl⟩

lemma sorted_scoredEntries_of_zero (query : String) (docs : List RDoc)
    (h0 : ∀ d ∈ docs, overlapScore query d.text = 0) :
    List.Sorted rankRel (scoredEntries query docs) := by
  apply List.pairwise_map.mpr
  have hp : List.Pairwise (fun a b : Nat × RDoc => a.1 < b.1) docs.enum :=
    pairwise_fst_lt_enumFrom docs 0
  refine hp.imp_of_mem ?_
  intro a b ha hb hab
  exact Or.inr ⟨by simp [h0 _ (mem_enumFrom_snd ha), h0 _ (mem_enumFrom_snd hb)],
    Nat.le_of_lt hab⟩

lemma take_map_scored (query : String) (docs : List RDoc) (n : Nat) :
    ((scoredEntries query docs).take n).map (fun e => e.2.2) = docs.take n := by
  unfold scoredEntries
  rw [← List.map_take, List.map_map]
  have hgf : ((fun e : REntry => e.2.2)
      ∘ (fun p : Nat × RDoc => (overlapScore query p.2.text, p.1, p.2))) = Prod.snd :=
    funext fun p => rfl
  rw [hgf, List.map_take]
  rw [show docs.enum.map Prod.snd = docs from List.enumFrom_map_snd 0 docs]

lemma rank_docs_def (query : String) (docs : List RDoc) (top_k : Nat) :
    rank_docs query docs top_k
      = if ((((rankedEntries query docs).take top_k).filter (fun e => 0 < e.1)).map
            (fun e => e.2.2)).isEmpty
        then ((rankedEntries query docs).take (max 1 (top_k / 3))).map (fun e => e.2.2)
        else (((rankedEntries query docs).take top_k).filter (fun e => 0 < e.1)).map
            (fun e => e.2.2) := rfl

lemma length_rankedEntries (query : String) (docs : List RDoc) :
    (rankedEntries query docs).length = docs.length := by
  unfold rankedEntries
  rw [(List.perm_insertionSort rankRel (scoredEntries query docs)).length_eq]
  simp [scoredEntries]

/-! ## Claim C7 -/

/-- C7: every document is scored with the size of the intersection of the
case-folded whitespace token sets (concretely, `"alpha beta"` against
`"alpha gamma"` scores `1`), and the sorted scored list is ordered by
descending score with ties broken by original corpus position (the stable
sort order `rankRel`), while remaining a permutation of the scored list. -/
theorem rank_docs_scoring_and_stable_order :
    (∀ q t : String, overlapScore q t = (pyTokens q ∩ pyTokens t).card)
    ∧ (∀ (query : String) (docs : List RDoc),
        List.Sorted rankRel (rankedEntries query docs)
        ∧ List.Perm (rankedEntries query docs) (scoredEntries query docs))
    ∧ overlapScore "alpha beta" "alpha gamma" = 1 := by
  refine ⟨?_, fun query docs => ⟨List.sorted_insertionSort rankRel _,
    List.perm_insertionSort rankRel _⟩, by rfl⟩
  intro q t
  have hset : pyTokens q ∩ pyTokens t
      = ((pyWords q).dedup.filter (fun a => a ∈ pyWords t)).toFinset := by
    ext a
    simp [pyTokens, List.mem_filter, List.mem_dedup]
  rw [hset, List.card_toFinset,
    List.Nodup.dedup (((pyWords q).nodup_dedup).filter _)]
  rfl

/-! ## Claim C2 -/

/-- C2, counterexample: on an empty corpus no document has nonzero
overlap, yet `rank_docs` returns the empty list -- the fallback takes the
first `max(1, K/3)` elements of an empty list -- so "at least one
document is always returned" is false for the empty corpus. -/
theorem rank_docs_empty_corpus : rank_docs "overdue" [] 10 = [] := rfl

/-- C2, amended: `rank_docs` returns the top-K positive-overlap documents
when any overlap exists (for `K ≥ 1`), and whenever zero documents have
nonzero token overlap with the query it returns exactly the first
`max(1, K/3)` documents of the corpus in original corpus order (`K/3`
rounded down) -- so at least one document is returned whenever the corpus
itself is non-empty (an empty corpus yields an empty result). -/
theorem rank_docs_fallback_policy :
    ∀ (query : String) (docs : List RDoc) (top_k : Nat),
      ((∀ d ∈ docs, overlapScore query d.text = 0) →
        rank_docs query docs top_k = docs.take (max 1 (top_k / 3)))
      ∧ (docs ≠ [] → rank_docs query docs top_k ≠ [])
      ∧ (1 ≤ top_k → (∃ d ∈ docs, 0 < overlapScore query d.text) →
          rank_docs query docs top_k
            = (((rankedEntries query docs).take top_k).filter (fun e => 0 < e.1)).map
                (fun e => e.2.2)
          ∧ (rank_docs query docs top_k).length ≤ top_k
          ∧ rank_docs query docs top_k ≠ []) := by
  intro query docs top_k
  refine ⟨?_, ?_, ?_⟩
  · -- zero overlap everywhere: the fallback fires and keeps corpus order
    intro h0
    have hsorted : rankedEntries query docs = scoredEntries query docs :=
      List.Sorted.insertionSort_eq (sorted_scoredEntries_of_zero query docs h0)
    have hfilter : ∀ n : Nat,
        ((scoredEntries query docs).take n).filter (fun e => 0 < e.1) = [] := by
      intro n
      rw [List.filter_eq_nil_iff]
      intro e he
      have he2 := mem_scoredEntries (List.mem_of_mem_take he)
      simp [he2.1, h0 _ he2.2]
    rw [rank_docs_def, hsorted, hfilter, take_map_scored]
    simp
  · -- nonempty corpus: both branches return a nonempty list
    intro hne
    rw [rank_docs_def]
    by_cases h : ((((rankedEntries query docs).take top_k).filter (fun e => 0 < e.1)).map
        (fun e => e.2.2)).isEmpty
    · rw [if_pos h]
      intro hcon
      have hlen := congrArg List.length hcon
      rw [List.length_map, List.length_take, length_rankedEntries] at hlen
      have hd : 0 < docs.length := List.length_pos.mpr hne
      simp only [List.length_nil] at hlen
      omega
    · rw [if_neg h]
      exact List.isEmpty_eq_false.mp (by simpa using h)
  · -- some positive overlap and K ≥ 1: the non-fallback branch fires
    intro hK hpos
    obtain ⟨d, hd, hdpos⟩ := hpos
    obtain ⟨e, he, he1, _⟩ := exists_scoredEntry query docs d hd
    have heperm : e ∈ rankedEntries query docs :=
      ((List.perm_insertionSort rankRel (scoredEntries query docs)).mem_iff).mpr he
    rcases hsor : rankedEntries query docs with _ | ⟨e0, tl⟩
    · rw [hsor] at heperm
      simp at heperm
    · rw [← hsor]
      have hsorted : List.Sorted rankRel (e0 :: tl) :=
        hsor ▸ List.sorted_insertionSort rankRel (scoredEntries query docs)
      have hhead : 0 < e0.1 := by
        rw [hsor] at heperm
        rcases List.mem_cons.mp heperm with rfl | hetl
        · omega
        · rcases List.rel_of_sorted_cons hsorted e hetl with hlt | ⟨heq2, _⟩
          · omega
          · omega
      obtain ⟨k, rfl⟩ : ∃ k, top_k = k + 1 := ⟨top_k - 1, by omega⟩
      have htake : (e0 :: tl).take (k + 1) = e0 :: tl.take k := rfl
      have hfc : (e0 :: tl.take k).filter (fun e => 0 < e.1)
          = e0 :: ((tl.take k).filter (fun e => 0 < e.1)) :=
        List.filter_cons_of_pos (by simpa using hhead)
      have hbranch : ((((rankedEntries query docs).take (k + 1)).filter
          (fun e => 0 < e.1)).map (fun e => e.2.2))
          = e0.2.2 :: (((tl.take k).filter (fun e => 0 < e.1)).map (fun e => e.2.2)) := by
        rw [hsor, htake, hfc, List.map_cons]
      have hni : ((((rankedEntries query docs).take (k + 1)).filter
          (fun e => 0 < e.1)).map (fun e => e.2.2)).isEmpty = false := by
        rw [hbranch]
        rfl
      have hrank : rank_docs query docs (k + 1)
          = (((rankedEntries query docs).take (k + 1)).filter (fun e => 0 < e.1)).map
              (fun e => e.2.2) := by
        rw [rank_docs_def, hni]
        simp
      refine ⟨hrank, ?_, ?_⟩
      · rw [hrank, List.length_map]
        calc (((rankedEntries query docs).take (k + 1)).filter (fun e => 0 < e.1)).length
            ≤ ((rankedEntries query docs).take (k + 1)).length := List.length_filter_le _ _
          _ ≤ k + 1 := by rw [List.length_take]; omega
      · rw [hrank, hbranch]
        exact List.cons_ne_nil _ _

/-- C2, witness: the amended theorem evaluated at concrete inputs -- a
two-document corpus with zero overlap falls back to the first
`max(1, 8/3) = 2` documents, a nonempty corpus yields a nonempty result,
and a corpus containing the token `"overdue"` yields that document. -/
theorem rank_docs_fallback_policy_witness :
    rank_docs "qqq" [⟨"a", "alpha"⟩, ⟨"b", "beta"⟩, ⟨"c", "gamma"⟩] 8
      = [⟨"a", "alpha"⟩, ⟨"b", "beta"⟩, ⟨"c", "gamma"⟩].take (max 1 (8 / 3))
    ∧ rank_docs "qqq" [⟨"a", "alpha"⟩, ⟨"b", "beta"⟩, ⟨"c", "gamma"⟩] 8 ≠ []
    ∧ (rank_docs "overdue" [⟨"a", "alpha"⟩, ⟨"b", "overdue invoice"⟩] 8
        = (((rankedEntries "overdue" [⟨"a", "alpha"⟩, ⟨"b", "overdue invoice"⟩]).take 8).filter
            (fun e => 0 < e.1)).map (fun e => e.2.2)
        ∧ (rank_docs "overdue" [⟨"a", "alpha"⟩, ⟨"b", "overdue invoice"⟩] 8).length ≤ 8
        ∧ rank_docs "overdue" [⟨"a", "alpha"⟩, ⟨"b", "overdue invoice"⟩] 8 ≠ []) :=
  ⟨(rank_docs_fallback_policy "qqq" [⟨"a", "alpha"⟩, ⟨"b", "beta"⟩, ⟨"c", "gamma"⟩] 8).1
      (by decide),
   (rank_docs_fallback_policy "qqq" [⟨"a", "alpha"⟩, ⟨"b", "beta"⟩, ⟨"c", "gamma"⟩] 8).2.1
      (by decide),
   (rank_docs_fallback_policy "overdue" [⟨"a", "alpha"⟩, ⟨"b", "overdue invoice"⟩] 8).2.2
      (by decide) (by decide)⟩

/-! ## Join lemmas: row counts -/

lemma length_getColVals (df : Df) (c : String) :
    (getColVals df c).length = df.rows.length := by
  simp [getColVals]

lemma length_setColumn_rows (df : Df) (c : String) (vals : List PyVal)
    (h : vals.length = df.rows.length) :
    (setColumn df c vals).rows.length = df.rows.length := by
  unfold setColumn
  split <;> simp [List.length_zipWith, h]

lemma length_combine_columns (df : Df) (p s : String) :
    (combine_columns df p s).length = df.rows.length := by
  unfold combine_columns
  split <;> split <;> simp [List.length_zipWith, length_getColVals]

lemma length_addCombined_rows (df : Df) (n p s : String) :
    (addCombined df n p s).rows.length = df.rows.length :=
  length_setColumn_rows df n _ (length_combine_columns df p s)

lemma mem_dedupKeyAux {i : Nat} :
    ∀ {fuel : Nat} {l : List (List PyVal)} {s : List PyVal},
      s ∈ dedupKeyAux i fuel l → s ∈ l := by
  intro fuel
  induction fuel with
  | zero => intro l s h; simp [dedupKeyAux] at h
  | succ f ih =>
    intro l s h
    cases l with
    | nil => simp [dedupKeyAux] at h
    | cons r t =>
      rw [dedupKeyAux] at h
      rcases List.mem_cons.mp h with rfl | h2
      · exact List.mem_cons_self s t
      · exact List.mem_cons_of_mem r (List.mem_filter.mp (ih h2)).1

lemma filter_dedupKeyAux_le_one (i : Nat) (k : KeyRep) :
    ∀ (fuel : Nat) (l : List (List PyVal)), l.length ≤ fuel →
      ((dedupKeyAux i fuel l).filter (fun s => keyAt i s = k)).length ≤ 1 := by
  intro fuel
  induction fuel with
  | zero =>
    intro l hl
    have : l = [] := List.length_eq_zero.mp (Nat.le_zero.mp hl)
    subst this
    simp [dedupKeyAux]
  | succ f ih =>
    intro l hl
    cases l with
    | nil => simp [dedupKeyAux]
    | cons r t =>
      rw [dedupKeyAux]
      by_cases hk : keyAt i r = k
      · rw [List.filter_cons_of_pos (by simpa using hk)]
        have hnil : (dedupKeyAux i f
            (t.filter (fun s => keyAt i s ≠ keyAt i r))).filter
            (fun s => keyAt i s = k) = [] := by
          rw [List.filter_eq_nil_iff]
          intro s hs
          have hsf := mem_dedupKeyAux hs
          have hne := (List.mem_filter.mp hsf).2
          simp only [decide_not, Bool.not_eq_true', decide_eq_false_iff_not] at hne
          simpa using fun hcon => hne (hcon.trans hk.symm)
        rw [hnil]
        simp
      · rw [List.filter_cons_of_neg (by simpa using hk)]
        refine ih _ ?_
        have h1 := List.length_filter_le (fun s => decide (keyAt i s ≠ keyAt i r)) t
        have h2 : t.length + 1 ≤ f + 1 := by simpa using hl
        omega

lemma matchRows_dedup_le_one (df : Df) (key : String) (k : KeyRep) :
    (matchRows (dropDuplicatesByKey df key) key k).length ≤ 1 := by
  unfold matchRows dropDuplicatesByKey
  exact filter_dedupKeyAux_le_one _ k _ _ (Nat.le_refl _)

lemma length_mergeRowsFor (L R : Df) (key : String) (lrow : List PyVal)
    (huniq : ∀ k, (matchRows R key k).length ≤ 1) :
    (mergeRowsFor L R key lrow).length = 1 := by
  unfold mergeRowsFor
  by_cases h : (matchRows R key (keyAt (colIdx L key) lrow)).isEmpty
  · rw [if_pos h]
    rfl
  · rw [if_neg h]
    rw [List.length_map]
    have h1 := huniq (keyAt (colIdx L key) lrow)
    have h2 : matchRows R key (keyAt (colIdx L key) lrow) ≠ [] := by
      simpa [List.isEmpty_iff] using h
    have h3 := List.length_pos.mpr h2
    omega

lemma length_flatMap_one {α β : Type} (f : α → List β) (l : List α)
    (h1 : ∀ a ∈ l, (f a).length = 1) : (l.flatMap f).length = l.length := by
  induction l with
  | nil => rfl
  | cons x xs ih =>
    rw [List.flatMap_cons, List.length_append, h1 x (List.mem_cons_self x xs),
      ih (fun a ha => h1 a (List.mem_cons_of_mem x ha))]
    simp only [List.length_cons]
    omega

lemma length_mergeLeft (L R : Df) (key : String)
    (huniq : ∀ k, (matchRows R key k).length ≤ 1) :
    (mergeLeft L R key).rows.length = L.rows.length := by
  unfold mergeLeft
  exact length_flatMap_one _ _ (fun lrow _ => length_mergeRowsFor L R key lrow huniq)

/-! ## Claim C1 -/

/-- C1: whenever the invoice/project reconciliation completes, the joined
output has exactly as many rows as the invoice input -- the pre-join
per-key deduplication of the project lookup guarantees at most one match
per invoice row, so the left join neither drops nor duplicates invoice
rows, and the appended combined columns keep the count. -/
theorem join_rowcount_invariant :
    ∀ (inv proj m : Df), invoiceSync inv proj = Except.ok m →
      m.rows.length = inv.rows.length := by
  intro inv proj m h
  by_cases hp : proj.cols.contains "Order number"
  · simp only [invoiceSync, hp, if_true, Except.ok.injEq] at h
    subst h
    rw [length_addCombined_rows, length_addCombined_rows, length_addCombined_rows,
      length_mergeLeft _ _ _ (fun k => by unfold lookupOf; exact matchRows_dedup_le_one _ _ k)]
    unfold invKeyedOf
    apply length_setColumn_rows
    split <;> simp [length_getColVals]
  · have hp2 : "Order number" ∉ proj.cols := by simpa using hp
    simp [invoiceSync, hp2] at h

/-! ## Join lemmas: shapes and missing key columns -/

lemma mem_zipWith {α β γ : Type} {f : α → β → γ} :
    ∀ {as : List α} {bs : List β} {c : γ},
      c ∈ List.zipWith f as bs → ∃ a ∈ as, ∃ b ∈ bs, c = f a b := by
  intro as
  induction as with
  | nil => intro bs c h; simp at h
  | cons a xs ih =>
    intro bs c h
    cases bs with
    | nil => simp at h
    | cons b bt =>
      rw [List.zipWith_cons_cons] at h
      rcases List.mem_cons.mp h with rfl | h2
      · exact ⟨a, List.mem_cons_self a xs, b, List.mem_cons_self b bt, rfl⟩
      · obtain ⟨a2, ha, b2, hb, rfl⟩ := ih h2
        exact ⟨a2, List.mem_cons_of_mem a ha, b2, List.mem_cons_of_mem b hb, rfl⟩

lemma setColumn_of_not_contains (df : Df) (c : String) (vals : List PyVal)
    (h : df.cols.contains c = false) :
    setColumn df c vals
      = ⟨df.cols ++ [c], List.zipWith (fun row v => row ++ [v]) df.rows vals⟩ := by
  unfold setColumn
  rw [if_neg (by simp only [h]; exact Bool.false_ne_true)]

lemma setColumn_of_contains (df : Df) (c : String) (vals : List PyVal)
    (h : df.cols.contains c = true) :
    setColumn df c vals
      = ⟨df.cols, List.zipWith (fun row v => row.set (colIdx df c) v) df.rows vals⟩ := by
  unfold setColumn
  rw [if_pos h]

lemma indexOf_concat_self {α : Type} [BEq α] [LawfulBEq α] (l : List α) (c : α) (h : c ∉ l) :
    (l ++ [c]).indexOf c = l.length := by
  induction l with
  | nil => simp [List.indexOf_cons]
  | cons x xs ih =>
    have hx : (x == c) = false := by
      simp only [beq_eq_false_iff_ne]
      intro hcon
      exact h (hcon ▸ List.mem_cons_self x xs)
    rw [List.cons_append, List.indexOf_cons, hx]
    simp [ih (fun hm => h (List.mem_cons_of_mem x hm))]

lemma indexOf_lt_length_of_mem {α : Type} [BEq α] [LawfulBEq α] {c : α} :
    ∀ {l : List α}, c ∈ l → l.indexOf c < l.length := by
  intro l
  induction l with
  | nil => intro h; simp at h
  | cons x xs ih =>
    intro h
    rw [List.indexOf_cons]
    by_cases hx : (x == c) = true
    · simp [hx]
    · have hmem : c ∈ xs := by
        rcases List.mem_cons.mp h with rfl | h2
        · simp at hx
        · exact h2
      rw [Bool.not_eq_true] at hx
      rw [hx]
      simpa using Nat.succ_lt_succ (ih hmem)

lemma cellAt_concat (row : List PyVal) (v : PyVal) : cellAt row.length (row ++ [v]) = v := by
  unfold cellAt
  simp [List.getD_eq_getElem?_getD, List.getElem?_concat_length]

lemma cellAt_set_self (row : List PyVal) (i : Nat) (v : PyVal) (h : i < row.length) :
    cellAt i (row.set i v) = v := by
  unfold cellAt
  simp [List.getD_eq_getElem?_getD, List.getElem?_set_self h]

lemma flatMap_eq_map_of_singleton {α β : Type} {f : α → List β} {g : α → β} :
    ∀ {l : List α}, (∀ a ∈ l, f a = [g a]) → l.flatMap f = l.map g := by
  intro l
  induction l with
  | nil => intro _; rfl
  | cons x xs ih =>
    intro h
    rw [List.flatMap_cons, h x (List.mem_cons_self x xs),
      ih (fun a ha => h a (List.mem_cons_of_mem x ha)), List.map_cons, List.singleton_append]

lemma invKeyed_shape_nokey (inv : Df)
    (h1 : inv.cols.contains "Sale order No." = false)
    (h2 : inv.cols.contains "Order number" = false) :
    invKeyedOf inv
      = ⟨inv.cols ++ ["Order number"],
         List.zipWith (fun row v => row ++ [v]) inv.rows (inv.rows.map (fun _ => PyVal.nan))⟩ := by
  unfold invKeyedOf
  rw [if_neg (by simp only [h1]; exact Bool.false_ne_true)]
  exact setColumn_of_not_contains inv _ _ h2

lemma invKeyed_rows_key_null (inv : Df)
    (h1 : inv.cols.contains "Sale order No." = false)
    (h2 : inv.cols.contains "Order number" = false)
    (hwi : Df.Wf inv) :
    ∀ row ∈ (invKeyedOf inv).rows,
      keyAt (colIdx (invKeyedOf inv) "Order number") row = KeyRep.knull
      ∧ row.length = inv.cols.length + 1 := by
  rw [invKeyed_shape_nokey inv h1 h2]
  intro row hr
  obtain ⟨a, ha, b, hb, rfl⟩ := mem_zipWith hr
  obtain ⟨x, hx, rfl⟩ := List.mem_map.mp hb
  have hlen : a.length = inv.cols.length := hwi a ha
  constructor
  · show keyAt ((inv.cols ++ ["Order number"]).indexOf "Order number") (a ++ [PyVal.nan])
      = KeyRep.knull
    rw [indexOf_concat_self _ _ (by simpa using h2), ← hlen]
    unfold keyAt
    rw [cellAt_concat]
    rfl
  · simp [hlen]

lemma projKeyed_cols (proj : Df) (h6 : proj.cols.contains "Order number" = true) :
    (projKeyedOf proj).cols = proj.cols := by
  unfold projKeyedOf
  rw [setColumn_of_contains _ _ _ h6]

lemma lookup_cols (proj : Df) (h6 : proj.cols.contains "Order number" = true) :
    (lookupOf proj).cols
      = "Order number" :: (projectLookupCols.tail.filter (fun c => proj.cols.contains c)) := by
  show (projectLookupCols.filter (fun c => (projKeyedOf proj).cols.contains c)) = _
  simp only [projKeyed_cols proj h6]
  show List.filter _ ("Order number" :: projectLookupCols.tail) = _
  rw [List.filter_cons_of_pos h6]

lemma lookup_colIdx (proj : Df) (h6 : proj.cols.contains "Order number" = true) :
    colIdx (lookupOf proj) "Order number" = 0 := by
  unfold colIdx
  rw [lookup_cols proj h6, List.indexOf_cons]
  simp

lemma lookup_rows_key_kstr (proj : Df)
    (h6 : proj.cols.contains "Order number" = true) (hwp : Df.Wf proj) :
    ∀ row ∈ (lookupOf proj).rows, ∃ s, keyAt 0 row = KeyRep.kstr s := by
  intro row hr
  have hr2 : row ∈ (selectCols (projKeyedOf proj)
      (projectLookupCols.filter (fun c => (projKeyedOf proj).cols.contains c))).rows :=
    mem_dedupKeyAux hr
  simp only [selectCols, List.mem_map] at hr2
  obtain ⟨prow, hprow, rfl⟩ := hr2
  -- the selected column list starts with the key column
  have hcs : projectLookupCols.filter (fun c => (projKeyedOf proj).cols.contains c)
      = "Order number" :: (projectLookupCols.tail.filter (fun c => proj.cols.contains c)) :=
    lookup_cols proj h6
  rw [hcs, List.map_cons]
  -- the key cell of a projKeyed row is a normalized string
  have hpc : (projKeyedOf proj).cols = proj.cols := projKeyed_cols proj h6
  have hprow2 : prow ∈ List.zipWith
      (fun row v => row.set (colIdx proj "Order number") v) proj.rows
      ((getColVals proj "Order number").map (fun v => PyVal.vstr (normalize_order_number v))) := by
    have := hprow
    rw [show projKeyedOf proj = ⟨proj.cols, List.zipWith
        (fun row v => row.set (colIdx proj "Order number") v) proj.rows
        ((getColVals proj "Order number").map (fun v => PyVal.vstr (normalize_order_number v)))⟩
      from setColumn_of_contains proj _ _ h6] at this
    exact this
  obtain ⟨a, ha, b, hb, rfl⟩ := mem_zipWith hprow2
  obtain ⟨w, hw, rfl⟩ := List.mem_map.mp hb
  have hidx : colIdx proj "Order number" < a.length := by
    rw [hwp a ha]
    exact indexOf_lt_length_of_mem (by simpa using h6)
  refine ⟨normalize_order_number w, ?_⟩
  unfold keyAt
  show keyRep (cellAt (colIdx (projKeyedOf proj) "Order number")
      (a.set (colIdx proj "Order number") (PyVal.vstr (normalize_order_number w))))
    = KeyRep.kstr (normalize_order_number w)
  have hsame : colIdx (projKeyedOf proj) "Order number" = colIdx proj "Order number" := by
    unfold colIdx
    rw [hpc]
  rw [hsame, cellAt_set_self _ _ _ hidx]
  rfl

lemma matchRows_lookup_null (proj : Df)
    (h6 : proj.cols.contains "Order number" = true) (hwp : Df.Wf proj) :
    matchRows (lookupOf proj) "Order number" KeyRep.knull = [] := by
  unfold matchRows
  rw [List.filter_eq_nil_iff]
  intro r hr
  obtain ⟨s, hs⟩ := lookup_rows_key_kstr proj h6 hwp r hr
  rw [lookup_colIdx proj h6]
  simp [hs]

lemma mergeLeft_rows_no_match (L R : Df) (key : String)
    (hnull : ∀ lrow ∈ L.rows, matchRows R key (keyAt (colIdx L key) lrow) = []) :
    (mergeLeft L R key).rows
      = L.rows.map
          (fun lrow => lrow ++ List.replicate (rightCols L.cols R key).length PyVal.nan) := by
  show L.rows.flatMap (mergeRowsFor L R key) = _
  apply flatMap_eq_map_of_singleton
  intro lrow hl
  unfold mergeRowsFor
  rw [hnull lrow hl]
  rfl

lemma addCombined_segment (df : Df) (n p s : String) (start len : Nat)
    (hn : df.cols.contains n = false)
    (hrow : ∀ row ∈ df.rows,
      (row.drop start).take len = List.replicate len PyVal.nan ∧ start + len ≤ row.length) :
    (addCombined df n p s).cols = df.cols ++ [n]
    ∧ ∀ row ∈ (addCombined df n p s).rows,
        (row.drop start).take len = List.replicate len PyVal.nan ∧ start + len ≤ row.length := by
  unfold addCombined
  rw [setColumn_of_not_contains _ _ _ hn]
  refine ⟨rfl, ?_⟩
  intro row hr
  obtain ⟨a, ha, b, hb, rfl⟩ := mem_zipWith hr
  obtain ⟨hseg, hlen⟩ := hrow a ha
  have hd : (a ++ [b]).drop start = a.drop start ++ [b] :=
    List.drop_append_of_le_length (by omega)
  constructor
  · rw [hd, List.take_append_of_le_length (by simp [List.length_drop]; omega), hseg]
  · simp only [List.length_append, List.length_cons, List.length_nil]
    omega

lemma getD_map {α β : Type} (g : α → β) (l : List α) (i : Nat) (d : β) (da : α)
    (h : i < l.length) : (l.map g).getD i d = g (l.getD i da) := by
  rw [List.getD_eq_getElem?_getD, List.getElem?_map, List.getElem?_eq_getElem h,
    List.getD_eq_getElem?_getD, List.getElem?_eq_getElem h]
  rfl

lemma getD_zipWith {α β γ : Type} (f : α → β → γ) (as : List α) (bs : List β) (i : Nat)
    (d : γ) (da : α) (db : β) (ha : i < as.length) (hb : i < bs.length) :
    (List.zipWith f as bs).getD i d = f (as.getD i da) (bs.getD i db) := by
  rw [List.getD_eq_getElem?_getD, List.getElem?_zipWith, List.getElem?_eq_getElem ha,
    List.getElem?_eq_getElem hb, List.getD_eq_getElem?_getD, List.getElem?_eq_getElem ha,
    List.getD_eq_getElem?_getD, List.getElem?_eq_getElem hb]
  rfl

lemma not_mem_rightCols_lookup (proj : Df) (lcols : List String) (n : String)
    (hall : ∀ c ∈ projectLookupCols, c ≠ n ∧ c ++ "_project" ≠ n) :
    n ∉ rightCols lcols (lookupOf proj) "Order number" := by
  unfold rightCols
  intro hmem
  obtain ⟨c, hc, hcn⟩ := List.mem_map.mp hmem
  have hc2 : c ∈ (lookupOf proj).cols := List.eraseIdx_subset _ _ hc
  have hc3 : c ∈ projectLookupCols := by
    have : (lookupOf proj).cols
        = projectLookupCols.filter (fun c => (projKeyedOf proj).cols.contains c) := rfl
    rw [this] at hc2
    exact List.mem_of_mem_filter hc2
  obtain ⟨hne1, hne2⟩ := hall c hc3
  by_cases hlc : lcols.contains c = true
  · rw [if_pos hlc] at hcn
    exact hne2 hcn
  · rw [if_neg hlc] at hcn
    exact hne1 hcn

/-! ## Claim C9 -/

/-- C9, counterexample: when the project table lacks the `"Order number"`
column, line 156 (`project_df["Order number"]`) raises a `KeyError` --
the join step does not complete, contradicting the claim that a missing
join key column always degrades to "no matches". -/
theorem missing_project_key_raises :
    invoiceSync ⟨["Sale order No."], [[PyVal.vstr "500"]]⟩ ⟨["Project"], [[PyVal.vstr "X"]]⟩
      = Except.error "KeyError: Order number" := rfl

/-- C9, amended: the two sides of the join behave differently when the
key column is missing.  When the project table lacks `"Order number"`,
the subscript on line 156 raises a `KeyError`.  When only the invoice
table lacks `"Sale order No."`, the `.get` default on line 155 yields an
all-NaN key column, no invoice key matches any (string-normalized)
project key, and the join completes with every project-side field of
every output row NaN -- the project-side segment of each output row
(the `(lookupOf proj).cols.length - 1` cells after the
`inv.cols.length + 1` invoice-side cells) is entirely NaN-filled.  The
well-formedness and column-absence side conditions describe an ordinary
invoice frame (rows matching the header, none of the derived column
names already present). -/
theorem join_key_missing_behaviour :
    ∀ inv proj : Df,
      (proj.cols.contains "Order number" = false →
        invoiceSync inv proj = Except.error "KeyError: Order number")
      ∧ (inv.cols.contains "Sale order No." = false →
        inv.cols.contains "Order number" = false →
        inv.cols.contains "Project Engineer Combined" = false →
        inv.cols.contains "Customer Combined" = false →
        inv.cols.contains "Project Combined" = false →
        proj.cols.contains "Order number" = true →
        Df.Wf inv → Df.Wf proj →
        ∃ m, invoiceSync inv proj = Except.ok m
          ∧ m.rows.length = inv.rows.length
          ∧ ∀ row ∈ m.rows,
              (row.drop (inv.cols.length + 1)).take ((lookupOf proj).cols.length - 1)
                = List.replicate ((lookupOf proj).cols.length - 1) PyVal.nan) := by
  intro inv proj
  constructor
  · intro hp
    unfold invoiceSync
    rw [if_neg (by simp only [hp]; exact Bool.false_ne_true)]
  · intro h1 h2 h3 h4 h5 h6 hwi hwp
    refine ⟨addCombined (addCombined (addCombined
        (mergeLeft (invKeyedOf inv) (lookupOf proj) "Order number")
        "Project Engineer Combined" "Project Engineer" "Project Engineer_project")
        "Customer Combined" "Customer" "Customer_project")
        "Project Combined" "Project" "Project_project", ?_, ?_, ?_⟩
    · unfold invoiceSync
      rw [if_pos h6]
    · rw [length_addCombined_rows, length_addCombined_rows, length_addCombined_rows,
        length_mergeLeft _ _ _ (fun k => by unfold lookupOf; exact matchRows_dedup_le_one _ _ k)]
      unfold invKeyedOf
      apply length_setColumn_rows
      split <;> simp [length_getColVals]
    · have hic : (invKeyedOf inv).cols = inv.cols ++ ["Order number"] := by
        rw [invKeyed_shape_nokey inv h1 h2]
      have hnull : ∀ lrow ∈ (invKeyedOf inv).rows,
          matchRows (lookupOf proj) "Order number"
            (keyAt (colIdx (invKeyedOf inv) "Order number") lrow) = [] := by
        intro lrow hl
        rw [(invKeyed_rows_key_null inv h1 h2 hwi lrow hl).1]
        exact matchRows_lookup_null proj h6 hwp
      have hrc : (rightCols (invKeyedOf inv).cols (lookupOf proj) "Order number").length
          = (lookupOf proj).cols.length - 1 := by
        unfold rightCols
        rw [List.length_map, lookup_colIdx proj h6, lookup_cols proj h6]
        rfl
      have hbase : ∀ row ∈ (mergeLeft (invKeyedOf inv) (lookupOf proj) "Order number").rows,
          (row.drop (inv.cols.length + 1)).take ((lookupOf proj).cols.length - 1)
            = List.replicate ((lookupOf proj).cols.length - 1) PyVal.nan
          ∧ (inv.cols.length + 1) + ((lookupOf proj).cols.length - 1) ≤ row.length := by
        rw [mergeLeft_rows_no_match (invKeyedOf inv) (lookupOf proj) "Order number" hnull]
        intro row hrow
        obtain ⟨lrow, hl, rfl⟩ := List.mem_map.mp hrow
        have hlr := (invKeyed_rows_key_null inv h1 h2 hwi lrow hl).2
        constructor
        · rw [List.drop_left' hlr, hrc]
          simp
        · simp only [List.length_append, List.length_replicate, hlr, hrc]
          omega
      have hmc : (mergeLeft (invKeyedOf inv) (lookupOf proj) "Order number").cols
          = (inv.cols ++ ["Order number"])
            ++ rightCols (invKeyedOf inv).cols (lookupOf proj) "Order number" := by
        show (invKeyedOf inv).cols ++ _ = _
        rw [hic]
      have hnc : ∀ n : String, n ∉ inv.cols → n ≠ "Order number" →
          (∀ c ∈ projectLookupCols, c ≠ n ∧ c ++ "_project" ≠ n) →
          (mergeLeft (invKeyedOf inv) (lookupOf proj) "Order number").cols.contains n
            = false := by
        intro n hn1 hn2 hall
        rw [hmc]
        have hnr := not_mem_rightCols_lookup proj (invKeyedOf inv).cols n hall
        simp [hn1, hn2, hnr]
      have hce : (mergeLeft (invKeyedOf inv) (lookupOf proj) "Order number").cols.contains
          "Project Engineer Combined" = false :=
        hnc _ (by simpa using h3) (by decide) (by decide)
      have hseg1 := addCombined_segment
        (mergeLeft (invKeyedOf inv) (lookupOf proj) "Order number")
        "Project Engineer Combined" "Project Engineer" "Project Engineer_project"
        (inv.cols.length + 1) ((lookupOf proj).cols.length - 1) hce hbase
      have hcc : (addCombined (mergeLeft (invKeyedOf inv) (lookupOf proj) "Order number")
          "Project Engineer Combined" "Project Engineer" "Project Engineer_project").cols.contains
          "Customer Combined" = false := by
        rw [hseg1.1, hmc]
        have hnr := not_mem_rightCols_lookup proj (invKeyedOf inv).cols
          "Customer Combined" (by decide)
        simp [show "Customer Combined" ∉ inv.cols from by simpa using h4, hnr]
      have hseg2 := addCombined_segment _
        "Customer Combined" "Customer" "Customer_project"
        (inv.cols.length + 1) ((lookupOf proj).cols.length - 1) hcc hseg1.2
      have hcp : (addCombined (addCombined
          (mergeLeft (invKeyedOf inv) (lookupOf proj) "Order number")
          "Project Engineer Combined" "Project Engineer" "Project Engineer_project")
          "Customer Combined" "Customer" "Customer_project").cols.contains
          "Project Combined" = false := by
        rw [hseg2.1, hseg1.1, hmc]
        have hnr := not_mem_rightCols_lookup proj (invKeyedOf inv).cols
          "Project Combined" (by decide)
        simp [show "Project Combined" ∉ inv.cols from by simpa using h5, hnr]
      have hseg3 := addCombined_segment _
        "Project Combined" "Project" "Project_project"
        (inv.cols.length + 1) ((lookupOf proj).cols.length - 1) hcp hseg2.2
      exact fun row hrow => (hseg3.2 row hrow).1

/-- C9, witness: the amended theorem evaluated on concrete frames -- a
project frame without the key column makes the sync raise, and an
invoice frame without `"Sale order No."` joined to a keyed project frame
yields one row whose single project-side cell is NaN. -/
theorem join_key_missing_behaviour_witness :
    invoiceSync ⟨["Customer"], [[PyVal.vstr "Y"]]⟩ ⟨["Project"], [[PyVal.vstr "X"]]⟩
      = Except.error "KeyError: Order number"
    ∧ ∃ m, invoiceSync ⟨["Customer"], [[PyVal.vstr "Y"]]⟩
          ⟨["Order number", "Project"], [[PyVal.vstr "7", PyVal.vstr "P"]]⟩ = Except.ok m
        ∧ m.rows.length
            = (Df.mk ["Customer"] [[PyVal.vstr "Y"]]).rows.length
        ∧ ∀ row ∈ m.rows,
            (row.drop ((Df.mk ["Customer"] [[PyVal.vstr "Y"]]).cols.length + 1)).take
                ((lookupOf ⟨["Order number", "Project"],
                  [[PyVal.vstr "7", PyVal.vstr "P"]]⟩).cols.length - 1)
              = List.replicate
                  ((lookupOf ⟨["Order number", "Project"],
                    [[PyVal.vstr "7", PyVal.vstr "P"]]⟩).cols.length - 1) PyVal.nan :=
  ⟨(join_key_missing_behaviour ⟨["Customer"], [[PyVal.vstr "Y"]]⟩
      ⟨["Project"], [[PyVal.vstr "X"]]⟩).1 (by decide),
   (join_key_missing_behaviour ⟨["Customer"], [[PyVal.vstr "Y"]]⟩
      ⟨["Order number", "Project"], [[PyVal.vstr "7", PyVal.vstr "P"]]⟩).2
      (by decide) (by decide) (by decide) (by decide) (by decide) (by decide)
      (by intro r hr; simp only [List.mem_singleton] at hr; subst hr; rfl)
      (by intro r hr; simp only [List.mem_singleton] at hr; subst hr; rfl)⟩

/-- C1, witness: the row-count invariant evaluated on a concrete
one-invoice, one-project pair of frames. -/
theorem join_rowcount_invariant_witness :
    (Df.mk ["Sale order No.", "Customer", "Order number", "Customer_project",
        "Project Engineer Combined", "Customer Combined", "Project Combined"]
      [[PyVal.vstr "500", PyVal.vstr "Acme", PyVal.vstr "500", PyVal.vstr "Other",
        PyVal.none, PyVal.vstr "Acme", PyVal.none]]).rows.length
      = (Df.mk ["Sale order No.", "Customer"]
          [[PyVal.vstr "500", PyVal.vstr "Acme"]]).rows.length :=
  join_rowcount_invariant
    ⟨["Sale order No.", "Customer"], [[PyVal.vstr "500", PyVal.vstr "Acme"]]⟩
    ⟨["Order number", "Customer"], [[PyVal.vstr "500", PyVal.vstr "Other"]]⟩
    _ (by rfl)

/-! ## Claim C4 -/

/-- C4, counterexample: an invoice row and a project row whose raw keys
are both NaN normalize to the empty string on both sides, and pandas
`merge` matches those empty strings like any other equal value -- the
invoice row's project-side `Project` field is `"P1"`, not null, in the
joined output. -/
theorem empty_keys_do_match :
    normalize_order_number PyVal.nan = ""
    ∧ syncCell ⟨["Sale order No."], [[PyVal.nan]]⟩
        ⟨["Order number", "Project"], [[PyVal.nan, PyVal.vstr "P1"]]⟩ "Project" 0
      = some (PyVal.vstr "P1")
    ∧ isNA (PyVal.vstr "P1") = false :=
  ⟨rfl, rfl, rfl⟩

/-- The single output row that one left row contributes to the left
merge once the right side has at most one match per key: the left row
extended by the cells of the first (and only) matching right row, or
NaN-padded when nothing matches. -/
def mergedRowFor (L R : Df) (key : String) (lrow : List PyVal) : List PyVal :=
  match matchRows R key (keyAt (colIdx L key) lrow) with
  | [] => lrow ++ List.replicate (rightCols L.cols R key).length PyVal.nan
  | m :: _ => lrow ++ rightCells R key m

/-- The pre-dedup project lookup rows (the lookup-column projection of
the project rows, in project-row order) whose normalized order key is
the empty string: its head, when it exists, is the projection of the
FIRST project row whose key normalizes to `""`. -/
def emptyKeyLookupRows (proj : Df) : List (List PyVal) :=
  (selectCols (projKeyedOf proj)
    (projectLookupCols.filter (fun c => (projKeyedOf proj).cols.contains c))).rows.filter
    (fun r => keyAt 0 r = KeyRep.kstr "")

lemma filter_dedupKeyAux_eq_take_one (i : Nat) (k : KeyRep) :
    ∀ (fuel : Nat) (l : List (List PyVal)), l.length ≤ fuel →
      (dedupKeyAux i fuel l).filter (fun s => keyAt i s = k)
        = (l.filter (fun s => keyAt i s = k)).take 1 := by
  intro fuel
  induction fuel with
  | zero =>
    intro l hl
    have : l = [] := List.length_eq_zero.mp (Nat.le_zero.mp hl)
    subst this
    rfl
  | succ f ih =>
    intro l hl
    cases l with
    | nil => rfl
    | cons r t =>
      rw [dedupKeyAux]
      by_cases hk : keyAt i r = k
      · rw [List.filter_cons_of_pos (by simpa using hk),
          List.filter_cons_of_pos (by simpa using hk)]
        have hnil : (dedupKeyAux i f
            (t.filter (fun s => keyAt i s ≠ keyAt i r))).filter
            (fun s => keyAt i s = k) = [] := by
          rw [List.filter_eq_nil_iff]
          intro s hs
          have hsf := mem_dedupKeyAux hs
          have hne := (List.mem_filter.mp hsf).2
          simp only [decide_not, Bool.not_eq_true', decide_eq_false_iff_not] at hne
          simpa using fun hcon => hne (hcon.trans hk.symm)
        rw [hnil]
        rfl
      · rw [List.filter_cons_of_neg (by simpa using hk),
          List.filter_cons_of_neg (by simpa using hk)]
        have hle : (t.filter (fun s => keyAt i s ≠ keyAt i r)).length ≤ f := by
          have hf1 := List.length_filter_le (fun s => decide (keyAt i s ≠ keyAt i r)) t
          have hf2 : t.length + 1 ≤ f + 1 := by simpa using hl
          omega
        rw [ih _ hle]
        congr 1
        rw [List.filter_filter]
        apply List.filter_congr
        intro a _
        by_cases ha : keyAt i a = k
        · have hne : keyAt i a ≠ keyAt i r := fun hcon => hk (hcon.symm.trans ha)
          have hne2 : ¬k = keyAt i r := fun hcon => hk hcon.symm
          simp [ha, hne, hne2]
        · simp [ha]

lemma matchRows_lookup_empty (proj : Df)
    (h6 : proj.cols.contains "Order number" = true) :
    matchRows (lookupOf proj) "Order number" (KeyRep.kstr "")
      = (emptyKeyLookupRows proj).take 1 := by
  have h0b : colIdx (selectCols (projKeyedOf proj)
      (projectLookupCols.filter (fun c => (projKeyedOf proj).cols.contains c))) "Order number"
      = 0 := lookup_colIdx proj h6
  unfold matchRows emptyKeyLookupRows
  rw [← h0b]
  exact filter_dedupKeyAux_eq_take_one _ _ _ _ (Nat.le_refl _)

lemma mergeRowsFor_eq_singleton (L R : Df) (key : String) (lrow : List PyVal)
    (huniq : ∀ k, (matchRows R key k).length ≤ 1) :
    mergeRowsFor L R key lrow = [mergedRowFor L R key lrow] := by
  unfold mergeRowsFor mergedRowFor
  cases hm : matchRows R key (keyAt (colIdx L key) lrow) with
  | nil => rfl
  | cons m t =>
    have h1 := huniq (keyAt (colIdx L key) lrow)
    rw [hm] at h1
    simp only [List.length_cons] at h1
    have ht : t = [] := List.length_eq_zero.mp (by omega)
    subst ht
    rfl

lemma mergeLeft_rows_dedup (L R : Df) (key : String)
    (huniq : ∀ k, (matchRows R key k).length ≤ 1) :
    (mergeLeft L R key).rows = L.rows.map (mergedRowFor L R key) := by
  show L.rows.flatMap (mergeRowsFor L R key) = _
  exact flatMap_eq_map_of_singleton
    (fun lrow _ => mergeRowsFor_eq_singleton L R key lrow huniq)

lemma mergedRowFor_eq_append (L R : Df) (key : String) (lrow : List PyVal) :
    ∃ ext, mergedRowFor L R key lrow = lrow ++ ext := by
  unfold mergedRowFor
  cases matchRows R key (keyAt (colIdx L key) lrow) with
  | nil => exact ⟨_, rfl⟩
  | cons m t => exact ⟨_, rfl⟩

lemma invKeyed_shape_withkey (inv : Df)
    (h1 : inv.cols.contains "Sale order No." = true)
    (h2 : inv.cols.contains "Order number" = false) :
    invKeyedOf inv
      = ⟨inv.cols ++ ["Order number"],
         List.zipWith (fun row v => row ++ [v]) inv.rows
           ((getColVals inv "Sale order No.").map
             (fun v => PyVal.vstr (normalize_order_number v)))⟩ := by
  unfold invKeyedOf
  rw [if_pos h1]
  exact setColumn_of_not_contains inv _ _ h2

lemma invKeyed_getD (inv : Df)
    (h1 : inv.cols.contains "Sale order No." = true)
    (h2 : inv.cols.contains "Order number" = false)
    (i : Nat) (hi : i < inv.rows.length) :
    (invKeyedOf inv).rows.getD i []
      = inv.rows.getD i []
        ++ [PyVal.vstr (normalize_order_number
            (cellAt (colIdx inv "Sale order No.") (inv.rows.getD i [])))] := by
  rw [invKeyed_shape_withkey inv h1 h2]
  show (List.zipWith (fun row v => row ++ [v]) inv.rows
      ((getColVals inv "Sale order No.").map
        (fun v => PyVal.vstr (normalize_order_number v)))).getD i [] = _
  rw [getD_zipWith _ _ _ i [] [] PyVal.nan hi
      (by rw [List.length_map, length_getColVals]; exact hi)]
  rw [getD_map _ _ i PyVal.nan PyVal.nan (by rw [length_getColVals]; exact hi)]
  rw [show (getColVals inv "Sale order No.").getD i PyVal.nan
      = cellAt (colIdx inv "Sale order No.") (inv.rows.getD i []) from by
    unfold getColVals
    exact getD_map _ _ i PyVal.nan [] hi]

lemma addCombined_getD (df : Df) (n p s : String) (i : Nat)
    (hn : df.cols.contains n = false) (hi : i < df.rows.length) :
    (addCombined df n p s).rows.getD i []
      = df.rows.getD i [] ++ [(combine_columns df p s).getD i PyVal.nan] := by
  unfold addCombined
  rw [setColumn_of_not_contains _ _ _ hn]
  show (List.zipWith (fun row v => row ++ [v]) df.rows (combine_columns df p s)).getD i []
    = _
  exact getD_zipWith _ _ _ i [] [] PyVal.nan hi
    (by rw [length_combine_columns]; exact hi)

lemma append_single_triple {α : Type} (x : List α) (a b c : α) :
    ((x ++ [a]) ++ [b]) ++ [c] = x ++ ([a] ++ ([b] ++ [c])) := by
  simp [List.append_assoc]

/-- C4, amended: two rows whose normalized order keys are both the empty
string DO match each other.  For every invoice frame (with its key
source column present and the derived column names fresh) and every
keyed project frame, the sync completes with one output row per invoice
row, and every invoice row whose `"Sale order No."` cell normalizes to
`""` (i) survives unchanged as the prefix of its output row, (ii) takes
its project-side fields from the FIRST project row whose key also
normalizes to `""` (the head of `emptyKeyLookupRows`, kept by the
keep-first dedup), and (iii) has those fields NaN-filled only when no
project row at all has an empty normalized key. -/
theorem empty_key_match_takes_project_row :
    ∀ inv proj : Df,
      inv.cols.contains "Sale order No." = true →
      inv.cols.contains "Order number" = false →
      inv.cols.contains "Project Engineer Combined" = false →
      inv.cols.contains "Customer Combined" = false →
      inv.cols.contains "Project Combined" = false →
      proj.cols.contains "Order number" = true →
      Df.Wf inv → Df.Wf proj →
      ∃ m, invoiceSync inv proj = Except.ok m
        ∧ m.rows.length = inv.rows.length
        ∧ ∀ i : Nat, i < inv.rows.length →
            normalize_order_number
                (cellAt (colIdx inv "Sale order No.") (inv.rows.getD i [])) = "" →
            (m.rows.getD i []).take inv.cols.length = inv.rows.getD i []
            ∧ (∀ r t, emptyKeyLookupRows proj = r :: t →
                ((m.rows.getD i []).drop (inv.cols.length + 1)).take
                    ((lookupOf proj).cols.length - 1)
                  = rightCells (lookupOf proj) "Order number" r)
            ∧ (emptyKeyLookupRows proj = [] →
                ((m.rows.getD i []).drop (inv.cols.length + 1)).take
                    ((lookupOf proj).cols.length - 1)
                  = List.replicate ((lookupOf proj).cols.length - 1) PyVal.nan) := by
  intro inv proj h1 h2 h3 h4 h5 h6 hwi hwp
  have huniq : ∀ k, (matchRows (lookupOf proj) "Order number" k).length ≤ 1 := by
    intro k
    unfold lookupOf
    exact matchRows_dedup_le_one _ _ k
  refine ⟨addCombined (addCombined (addCombined
      (mergeLeft (invKeyedOf inv) (lookupOf proj) "Order number")
      "Project Engineer Combined" "Project Engineer" "Project Engineer_project")
      "Customer Combined" "Customer" "Customer_project")
      "Project Combined" "Project" "Project_project", ?_, ?_, ?_⟩
  · unfold invoiceSync
    rw [if_pos h6]
  · rw [length_addCombined_rows, length_addCombined_rows, length_addCombined_rows,
      length_mergeLeft _ _ _ huniq]
    unfold invKeyedOf
    apply length_setColumn_rows
    split <;> simp [length_getColVals]
  · intro i hi hkey
    have hic : (invKeyedOf inv).cols = inv.cols ++ ["Order number"] := by
      rw [invKeyed_shape_withkey inv h1 h2]
    have hLlen : (invKeyedOf inv).rows.length = inv.rows.length := by
      rw [invKeyed_shape_withkey inv h1 h2]
      simp [List.length_zipWith, length_getColVals]
    have hmem : inv.rows.getD i [] ∈ inv.rows := by
      rw [List.getD_eq_getElem?_getD, List.getElem?_eq_getElem hi]
      exact List.getElem_mem hi
    have hrowlen : (inv.rows.getD i []).length = inv.cols.length := hwi _ hmem
    have hgL := invKeyed_getD inv h1 h2 i hi
    have hcolL : colIdx (invKeyedOf inv) "Order number" = inv.cols.length := by
      show (invKeyedOf inv).cols.indexOf "Order number" = inv.cols.length
      rw [hic]
      exact indexOf_concat_self inv.cols "Order number" (by simpa using h2)
    have hkeyi : keyAt (colIdx (invKeyedOf inv) "Order number")
        ((invKeyedOf inv).rows.getD i []) = KeyRep.kstr "" := by
      rw [invKeyed_getD inv h1 h2 i hi, hkey, hcolL]
      show keyRep (cellAt inv.cols.length (inv.rows.getD i [] ++ [PyVal.vstr ""])) = _
      rw [← hrowlen, cellAt_concat]
      rfl
    have hmc : (mergeLeft (invKeyedOf inv) (lookupOf proj) "Order number").cols
        = (inv.cols ++ ["Order number"])
          ++ rightCols (invKeyedOf inv).cols (lookupOf proj) "Order number" := by
      show (invKeyedOf inv).cols ++ _ = _
      rw [hic]
    have hnc : ∀ n : String, n ∉ inv.cols → n ≠ "Order number" →
        (∀ c ∈ projectLookupCols, c ≠ n ∧ c ++ "_project" ≠ n) →
        (mergeLeft (invKeyedOf inv) (lookupOf proj) "Order number").cols.contains n
          = false := by
      intro n hn1 hn2 hall
      rw [hmc]
      have hnr := not_mem_rightCols_lookup proj (invKeyedOf inv).cols n hall
      simp [hn1, hn2, hnr]
    have hce : (mergeLeft (invKeyedOf inv) (lookupOf proj) "Order number").cols.contains
        "Project Engineer Combined" = false :=
      hnc _ (by simpa using h3) (by decide) (by decide)
    have hcc : (addCombined (mergeLeft (invKeyedOf inv) (lookupOf proj) "Order number")
        "Project Engineer Combined" "Project Engineer" "Project Engineer_project").cols.contains
        "Customer Combined" = false := by
      have hsh := setColumn_of_not_contains
        (mergeLeft (invKeyedOf inv) (lookupOf proj) "Order number") "Project Engineer Combined"
        (combine_columns (mergeLeft (invKeyedOf inv) (lookupOf proj) "Order number")
          "Project Engineer" "Project Engineer_project") hce
      show (setColumn _ _ _).cols.contains _ = false
      rw [hsh, hmc]
      have hnr := not_mem_rightCols_lookup proj (invKeyedOf inv).cols
        "Customer Combined" (by decide)
      simp [show "Customer Combined" ∉ inv.cols from by simpa using h4, hnr]
    have hcp : (addCombined (addCombined
        (mergeLeft (invKeyedOf inv) (lookupOf proj) "Order number")
        "Project Engineer Combined" "Project Engineer" "Project Engineer_project")
        "Customer Combined" "Customer" "Customer_project").cols.contains
        "Project Combined" = false := by
      have hsh1 := setColumn_of_not_contains
        (mergeLeft (invKeyedOf inv) (lookupOf proj) "Order number") "Project Engineer Combined"
        (combine_columns (mergeLeft (invKeyedOf inv) (lookupOf proj) "Order number")
          "Project Engineer" "Project Engineer_project") hce
      have hsh2 := setColumn_of_not_contains
        (addCombined (mergeLeft (invKeyedOf inv) (lookupOf proj) "Order number")
          "Project Engineer Combined" "Project Engineer" "Project Engineer_project")
        "Customer Combined"
        (combine_columns (addCombined
          (mergeLeft (invKeyedOf inv) (lookupOf proj) "Order number")
          "Project Engineer Combined" "Project Engineer" "Project Engineer_project")
          "Customer" "Customer_project") hcc
      show (setColumn _ _ _).cols.contains _ = false
      rw [hsh2]
      show ((addCombined _ _ _ _).cols ++ _).contains _ = false
      rw [show (addCombined (mergeLeft (invKeyedOf inv) (lookupOf proj) "Order number")
          "Project Engineer Combined" "Project Engineer" "Project Engineer_project").cols
          = (mergeLeft (invKeyedOf inv) (lookupOf proj) "Order number").cols
            ++ ["Project Engineer Combined"] from by
        show (setColumn _ _ _).cols = _
        rw [hsh1], hmc]
      have hnr := not_mem_rightCols_lookup proj (invKeyedOf inv).cols
        "Project Combined" (by decide)
      simp [show "Project Combined" ∉ inv.cols from by simpa using h5, hnr]
    have hi1 : i < (mergeLeft (invKeyedOf inv) (lookupOf proj) "Order number").rows.length := by
      rw [length_mergeLeft _ _ _ huniq, hLlen]
      exact hi
    have hi2 : i < (addCombined (mergeLeft (invKeyedOf inv) (lookupOf proj) "Order number")
        "Project Engineer Combined" "Project Engineer"
        "Project Engineer_project").rows.length := by
      rw [length_addCombined_rows]
      exact hi1
    have hi3 : i < (addCombined (addCombined
        (mergeLeft (invKeyedOf inv) (lookupOf proj) "Order number")
        "Project Engineer Combined" "Project Engineer" "Project Engineer_project")
        "Customer Combined" "Customer" "Customer_project").rows.length := by
      rw [length_addCombined_rows]
      exact hi2
    have hg1 : (mergeLeft (invKeyedOf inv) (lookupOf proj) "Order number").rows.getD i []
        = mergedRowFor (invKeyedOf inv) (lookupOf proj) "Order number"
            ((invKeyedOf inv).rows.getD i []) := by
      rw [mergeLeft_rows_dedup _ _ _ huniq]
      exact getD_map _ _ i [] [] (by rw [hLlen]; exact hi)
    have hg2 := addCombined_getD (mergeLeft (invKeyedOf inv) (lookupOf proj) "Order number")
      "Project Engineer Combined" "Project Engineer" "Project Engineer_project" i hce hi1
    have hg3 := addCombined_getD (addCombined
        (mergeLeft (invKeyedOf inv) (lookupOf proj) "Order number")
        "Project Engineer Combined" "Project Engineer" "Project Engineer_project")
      "Customer Combined" "Customer" "Customer_project" i hcc hi2
    have hg4 := addCombined_getD (addCombined (addCombined
        (mergeLeft (invKeyedOf inv) (lookupOf proj) "Order number")
        "Project Engineer Combined" "Project Engineer" "Project Engineer_project")
        "Customer Combined" "Customer" "Customer_project")
      "Project Combined" "Project" "Project_project" i hcp hi3
    obtain ⟨v1, hg2b⟩ : ∃ v, (addCombined
        (mergeLeft (invKeyedOf inv) (lookupOf proj) "Order number")
        "Project Engineer Combined" "Project Engineer"
        "Project Engineer_project").rows.getD i []
        = (mergeLeft (invKeyedOf inv) (lookupOf proj) "Order number").rows.getD i [] ++ [v] :=
      ⟨_, hg2⟩
    obtain ⟨v2, hg3b⟩ : ∃ v, (addCombined (addCombined
        (mergeLeft (invKeyedOf inv) (lookupOf proj) "Order number")
        "Project Engineer Combined" "Project Engineer" "Project Engineer_project")
        "Customer Combined" "Customer" "Customer_project").rows.getD i []
        = (addCombined (mergeLeft (invKeyedOf inv) (lookupOf proj) "Order number")
            "Project Engineer Combined" "Project Engineer"
            "Project Engineer_project").rows.getD i [] ++ [v] :=
      ⟨_, hg3⟩
    obtain ⟨v3, hg4b⟩ : ∃ v, (addCombined (addCombined (addCombined
        (mergeLeft (invKeyedOf inv) (lookupOf proj) "Order number")
        "Project Engineer Combined" "Project Engineer" "Project Engineer_project")
        "Customer Combined" "Customer" "Customer_project")
        "Project Combined" "Project" "Project_project").rows.getD i []
        = (addCombined (addCombined
            (mergeLeft (invKeyedOf inv) (lookupOf proj) "Order number")
            "Project Engineer Combined" "Project Engineer" "Project Engineer_project")
            "Customer Combined" "Customer" "Customer_project").rows.getD i [] ++ [v] :=
      ⟨_, hg4⟩
    have hout : (addCombined (addCombined (addCombined
        (mergeLeft (invKeyedOf inv) (lookupOf proj) "Order number")
        "Project Engineer Combined" "Project Engineer" "Project Engineer_project")
        "Customer Combined" "Customer" "Customer_project")
        "Project Combined" "Project" "Project_project").rows.getD i []
        = mergedRowFor (invKeyedOf inv) (lookupOf proj) "Order number"
            ((invKeyedOf inv).rows.getD i []) ++ ([v1] ++ ([v2] ++ [v3])) := by
      rw [hg4b, hg3b, hg2b, hg1, append_single_triple]
    have hPlen : (inv.rows.getD i [] ++ [PyVal.vstr ""]).length = inv.cols.length + 1 := by
      rw [List.length_append, hrowlen]
      rfl
    have hrc : (rightCols (invKeyedOf inv).cols (lookupOf proj) "Order number").length
        = (lookupOf proj).cols.length - 1 := by
      unfold rightCols
      rw [List.length_map, lookup_colIdx proj h6, lookup_cols proj h6]
      rfl
    refine ⟨?_, ?_, ?_⟩
    · obtain ⟨ext2, hext2⟩ := mergedRowFor_eq_append (invKeyedOf inv) (lookupOf proj)
        "Order number" ((invKeyedOf inv).rows.getD i [])
      rw [hout, hext2, hgL, hkey, List.append_assoc, List.append_assoc]
      exact List.take_left' hrowlen
    · intro r t hem
      have hcs : projectLookupCols.filter (fun c => (projKeyedOf proj).cols.contains c)
          = "Order number" :: (projectLookupCols.tail.filter (fun c => proj.cols.contains c)) :=
        lookup_cols proj h6
      have hrmem : r ∈ (selectCols (projKeyedOf proj)
          (projectLookupCols.filter (fun c => (projKeyedOf proj).cols.contains c))).rows := by
        have hr0 : r ∈ emptyKeyLookupRows proj := by
          rw [hem]
          exact List.mem_cons_self r t
        exact List.mem_of_mem_filter hr0
      obtain ⟨prow, hprow, hreq⟩ := List.mem_map.mp hrmem
      have hr_len : (rightCells (lookupOf proj) "Order number" r).length
          = (lookupOf proj).cols.length - 1 := by
        unfold rightCells
        rw [lookup_colIdx proj h6, ← hreq, hcs, List.map_cons]
        show ((projectLookupCols.tail.filter (fun c => proj.cols.contains c)).map
            (fun c => cellAt (colIdx (projKeyedOf proj) c) prow)).length = _
        rw [List.length_map, lookup_cols proj h6]
        rfl
      have hmr : mergedRowFor (invKeyedOf inv) (lookupOf proj) "Order number"
          ((invKeyedOf inv).rows.getD i [])
          = (invKeyedOf inv).rows.getD i []
            ++ rightCells (lookupOf proj) "Order number" r := by
        unfold mergedRowFor
        rw [hkeyi, matchRows_lookup_empty proj h6, hem]
        rfl
      rw [hout, hmr, hgL, hkey, List.append_assoc, List.drop_left' hPlen]
      exact List.take_left' hr_len
    · intro hem
      have hmr : mergedRowFor (invKeyedOf inv) (lookupOf proj) "Order number"
          ((invKeyedOf inv).rows.getD i [])
          = (invKeyedOf inv).rows.getD i []
            ++ List.replicate
                (rightCols (invKeyedOf inv).cols (lookupOf proj) "Order number").length
                PyVal.nan := by
        unfold mergedRowFor
        rw [hkeyi, matchRows_lookup_empty proj h6, hem]
        rfl
      rw [hout, hmr, hgL, hkey, List.append_assoc, List.drop_left' hPlen, ← hrc]
      exact List.take_left' (List.length_replicate _ _)

/-- C4, witness: the amended theorem evaluated on concrete frames -- a
NaN-keyed invoice row joined to a project frame whose first row also has
a NaN key (normalizing to `""` on both sides) satisfies the prefix,
first-match and null-only-when-no-match clauses. -/
theorem empty_key_match_takes_project_row_witness :
    ∃ m, invoiceSync (Df.mk ["Sale order No."] [[PyVal.nan]])
          (Df.mk ["Order number", "Project"]
            [[PyVal.nan, PyVal.vstr "P1"], [PyVal.vstr "", PyVal.vstr "P2"]]) = Except.ok m
        ∧ m.rows.length = (Df.mk ["Sale order No."] [[PyVal.nan]]).rows.length
        ∧ ∀ i : Nat, i < (Df.mk ["Sale order No."] [[PyVal.nan]]).rows.length →
            normalize_order_number
                (cellAt (colIdx (Df.mk ["Sale order No."] [[PyVal.nan]]) "Sale order No.")
                  ((Df.mk ["Sale order No."] [[PyVal.nan]]).rows.getD i [])) = "" →
            (m.rows.getD i []).take (Df.mk ["Sale order No."] [[PyVal.nan]]).cols.length
                = (Df.mk ["Sale order No."] [[PyVal.nan]]).rows.getD i []
            ∧ (∀ r t, emptyKeyLookupRows (Df.mk ["Order number", "Project"]
                  [[PyVal.nan, PyVal.vstr "P1"], [PyVal.vstr "", PyVal.vstr "P2"]]) = r :: t →
                ((m.rows.getD i []).drop
                    ((Df.mk ["Sale order No."] [[PyVal.nan]]).cols.length + 1)).take
                    ((lookupOf (Df.mk ["Order number", "Project"]
                      [[PyVal.nan, PyVal.vstr "P1"],
                       [PyVal.vstr "", PyVal.vstr "P2"]])).cols.length - 1)
                  = rightCells (lookupOf (Df.mk ["Order number", "Project"]
                      [[PyVal.nan, PyVal.vstr "P1"], [PyVal.vstr "", PyVal.vstr "P2"]]))
                      "Order number" r)
            ∧ (emptyKeyLookupRows (Df.mk ["Order number", "Project"]
                  [[PyVal.nan, PyVal.vstr "P1"], [PyVal.vstr "", PyVal.vstr "P2"]]) = [] →
                ((m.rows.getD i []).drop
                    ((Df.mk ["Sale order No."] [[PyVal.nan]]).cols.length + 1)).take
                    ((lookupOf (Df.mk ["Order number", "Project"]
                      [[PyVal.nan, PyVal.vstr "P1"],
                       [PyVal.vstr "", PyVal.vstr "P2"]])).cols.length - 1)
                  = List.replicate ((lookupOf (Df.mk ["Order number", "Project"]
                      [[PyVal.nan, PyVal.vstr "P1"],
                       [PyVal.vstr "", PyVal.vstr "P2"]])).cols.length - 1) PyVal.nan) :=
  empty_key_match_takes_project_row
    (Df.mk ["Sale order No."] [[PyVal.nan]])
    (Df.mk ["Order number", "Project"]
      [[PyVal.nan, PyVal.vstr "P1"], [PyVal.vstr "", PyVal.vstr "P2"]])
    (by decide) (by decide) (by decide) (by decide) (by decide) (by decide)
    (by
      intro r hr
      simp only [List.mem_singleton] at hr
      subst hr
      rfl)
    (by
      intro r hr
      rcases List.mem_cons.mp hr with rfl | hr2
      · rfl
      · rcases List.mem_cons.mp hr2 with rfl | hr3
        · rfl
        · simp at hr3)

/-! ## Claim C5 -/

/-- The value of column `c` at row `i` as `combine_columns` sees it: the
cell when the column exists, `None` (the all-`None` default series)
otherwise. -/
def colValD (df : Df) (c : String) (i : Nat) : PyVal :=
  if df.cols.contains c then cellAt (colIdx df c) (df.rows.getD i []) else PyVal.none

/-- C5: for every frame, the combined column takes the primary
(invoice-side) value whenever it is present and non-null and falls back
to the secondary (project-side) value otherwise, never the reverse; and
through the full reconciliation, an invoice `Customer` of `"Acme"`
matched to a project `Customer` of `"Other"` combines to `"Acme"`, while
a null invoice `Customer` combines to `"Other"`. -/
theorem combine_columns_invoice_wins :
    (∀ (df : Df) (p s : String) (i : Nat), i < df.rows.length →
      (combine_columns df p s).getD i PyVal.none
        = if isNA (colValD df p i) then colValD df s i else colValD df p i)
    ∧ syncCell ⟨["Sale order No.", "Customer"], [[PyVal.vstr "500", PyVal.vstr "Acme"]]⟩
        ⟨["Order number", "Customer"], [[PyVal.vstr "500", PyVal.vstr "Other"]]⟩
        "Customer Combined" 0 = some (PyVal.vstr "Acme")
    ∧ syncCell ⟨["Sale order No.", "Customer"], [[PyVal.vstr "500", PyVal.nan]]⟩
        ⟨["Order number", "Customer"], [[PyVal.vstr "500", PyVal.vstr "Other"]]⟩
        "Customer Combined" 0 = some (PyVal.vstr "Other") := by
  refine ⟨?_, rfl, rfl⟩
  intro df p s i hi
  unfold combine_columns colValD
  have hgc : ∀ c : String, (getColVals df c).getD i PyVal.none
      = cellAt (colIdx df c) (df.rows.getD i []) := by
    intro c
    unfold getColVals
    exact getD_map _ _ _ _ [] hi
  have hz : ∀ (as bs : List PyVal), as.length = df.rows.length → bs.length = df.rows.length →
      (List.zipWith (fun a b => if isNA a then b else a) as bs).getD i PyVal.none
        = if isNA (as.getD i PyVal.none) then bs.getD i PyVal.none
          else as.getD i PyVal.none := by
    intro as bs ha hb
    exact getD_zipWith _ as bs i _ _ _ (by omega) (by omega)
  have hcn : (df.rows.map (fun _ => PyVal.none)).getD i PyVal.none = PyVal.none :=
    getD_map _ _ _ _ [] hi
  by_cases hp : df.cols.contains p
  · by_cases hs2 : df.cols.contains s
    · rw [if_pos hp, if_pos hs2,
        hz _ _ (by simp [getColVals]) (by simp [getColVals]), hgc, hgc]
      simp [show p ∈ df.cols from by simpa using hp, show s ∈ df.cols from by simpa using hs2]
    · rw [if_pos hp, if_neg hs2,
        hz _ _ (by simp [getColVals]) (by simp), hgc, hcn]
      simp [show p ∈ df.cols from by simpa using hp, show s ∉ df.cols from by simpa using hs2]
  · by_cases hs2 : df.cols.contains s
    · rw [if_neg hp, if_pos hs2,
        hz _ _ (by simp) (by simp [getColVals]), hgc, hcn]
      simp [show p ∉ df.cols from by simpa using hp, show s ∈ df.cols from by simpa using hs2]
    · rw [if_neg hp, if_neg hs2,
        hz _ _ (by simp) (by simp), hcn]
      simp [show p ∉ df.cols from by simpa using hp, show s ∉ df.cols from by simpa using hs2]

/-- C5, witness: the per-row fallback rule evaluated on a concrete frame
with a present primary value. -/
theorem combine_columns_invoice_wins_witness :
    (combine_columns ⟨["A", "B"], [[PyVal.vstr "x", PyVal.vstr "y"]]⟩ "A" "B").getD 0 PyVal.none
      = if isNA (colValD ⟨["A", "B"], [[PyVal.vstr "x", PyVal.vstr "y"]]⟩ "A" 0)
        then colValD ⟨["A", "B"], [[PyVal.vstr "x", PyVal.vstr "y"]]⟩ "B" 0
        else colValD ⟨["A", "B"], [[PyVal.vstr "x", PyVal.vstr "y"]]⟩ "A" 0 :=
  combine_columns_invoice_wins.1 ⟨["A", "B"], [[PyVal.vstr "x", PyVal.vstr "y"]]⟩ "A" "B" 0
    (by decide)
